import Mathlib

/-!
Verification development for the Contest Form Generator (`app.py`).

Strings are modelled as lists of characters; the app's data is ASCII, and all
Python string primitives used by the code (`upper`, `title`, `strip`, `split`,
`replace`, `isalnum`, `in`) are embedded on that fragment.
-/

/-- Strings are modelled as lists of characters. -/
abbrev Str := List Char

/-- Embed a Lean string literal into the string model. -/
def str (s : String) : Str := s.data

/-- The characters removed by Python `str.strip()` (ASCII whitespace). -/
def wsB (c : Char) : Bool :=
  c.toNat = 32 || c.toNat = 9 || c.toNat = 10 || c.toNat = 13 || c.toNat = 11 || c.toNat = 12

/-- ASCII lower-case letter. -/
def isLowerB (c : Char) : Bool := 97 ≤ c.toNat && c.toNat ≤ 122

/-- ASCII upper-case letter. -/
def isUpperB (c : Char) : Bool := 65 ≤ c.toNat && c.toNat ≤ 90

/-- ASCII letter. -/
def isAlphaB (c : Char) : Bool := isLowerB c || isUpperB c

/-- ASCII digit. -/
def isDigitB (c : Char) : Bool := 48 ≤ c.toNat && c.toNat ≤ 57

/-- ASCII `str.isalnum`. -/
def isAlnumB (c : Char) : Bool := isAlphaB c || isDigitB c

/-- Upper-case one character (Python `str.upper`, ASCII fragment). -/
def upChar (c : Char) : Char := if isLowerB c then Char.ofNat (c.toNat - 32) else c

/-- Lower-case one character (Python `str.lower`, ASCII fragment). -/
def downChar (c : Char) : Char := if isUpperB c then Char.ofNat (c.toNat + 32) else c

/-- Python `str.upper` on a string. -/
def pyUpper (s : Str) : Str := s.map upChar

/-- Worker for Python `str.title`: the flag records whether the previous
character was a letter (a "cased" character). -/
def titleAux : Bool → Str → Str
  | _, [] => []
  | prev, c :: cs =>
    if isAlphaB c then (if prev then downChar c else upChar c) :: titleAux true cs
    else c :: titleAux false cs

/-- Python `str.title` (ASCII fragment). -/
def pyTitle (s : Str) : Str := titleAux false s

/-- Remove leading whitespace. -/
def stripF (s : Str) : Str := s.dropWhile wsB

/-- Remove trailing whitespace. -/
def stripB (s : Str) : Str := (stripF s.reverse).reverse

/-- Python `str.strip()`. -/
def pyStrip (s : Str) : Str := stripB (stripF s)

/-- One folding step of Python `str.split()` (whitespace tokenisation). -/
def tokensStep (acc : List Str × Str) (c : Char) : List Str × Str :=
  if wsB c then (if acc.2 = [] then acc else (acc.1 ++ [acc.2], [])) else (acc.1, acc.2 ++ [c])

/-- Python `str.split()`: whitespace-separated tokens, empties dropped. -/
def tokens (s : Str) : List Str :=
  let r := s.foldl tokensStep ([], [])
  if r.2 = [] then r.1 else r.1 ++ [r.2]

/-- `str(x).strip().split()[-1] if len(str(x).strip()) > 0 else ""`
(the `Sort_Last_Name` helper of `calculate_numbers`). -/
def lastTok (s : Str) : Str := (tokens (pyStrip s)).getLastD []

/-- Worker for Python `str.replace`: leftmost, non-overlapping matches.  The
counter skips over characters already consumed by a match.  (Python's
behaviour for an empty pattern is not needed: the app never uses one; an empty
pattern here is the identity.) -/
def pyReplaceGo (pat rep : Str) : Nat → Str → Str
  | _, [] => []
  | skip+1, _ :: rest => pyReplaceGo pat rep skip rest
  | 0, c :: rest =>
    if !pat.isEmpty && pat.isPrefixOf (c :: rest) then
      rep ++ pyReplaceGo pat rep (pat.length - 1) rest
    else c :: pyReplaceGo pat rep 0 rest

/-- Python `str.replace(pat, rep)`. -/
def pyReplace (pat rep s : Str) : Str := pyReplaceGo pat rep 0 s

/-- Python's substring test `pat in s`. -/
def containsSub (pat : Str) : Str → Bool
  | [] => pat.isEmpty
  | c :: rest => pat.isPrefixOf (c :: rest) || containsSub pat rest

/-- Python string `<=` (lexicographic by code point). -/
def strLE : Str → Str → Bool
  | [], _ => true
  | _ :: _, [] => false
  | a :: as, b :: bs =>
    if a.toNat < b.toNat then true
    else if b.toNat < a.toNat then false
    else strLE as bs

/-- The backslash character. -/
def bsC : Char := Char.ofNat 92

/-- The opening curly brace character. -/
def lbC : Char := Char.ofNat 123

/-- The closing curly brace character. -/
def rbC : Char := Char.ofNat 125

/-- `escape_rtf` (app.py lines 42-46): three successive `str.replace` calls.
(`pd.isna` can only fire on missing cells, which the table model excludes.) -/
def escape_rtf (s : Str) : Str :=
  pyReplace [rbC] [bsC, rbC] (pyReplace [lbC] [bsC, lbC] (pyReplace [bsC] [bsC, bsC] s))

/-- Modelled from the spec: per-character RTF escaping — each of backslash and
the two braces is escaped exactly once, every other character is unchanged. -/
def escChar (c : Char) : Str :=
  if c = bsC then [bsC, bsC]
  else if c = lbC then [bsC, lbC]
  else if c = rbC then [bsC, rbC]
  else [c]

/-- `clean_filename` (app.py lines 37-40): replace both slashes by dashes, keep
only alphanumerics, spaces, dashes and underscores, then strip. -/
def clean_filename (t : Str) : Str :=
  let t1 := pyReplace [ '/' ] [ '-' ] t
  let t2 := pyReplace [bsC] [ '-' ] t1
  pyStrip (t2.filter (fun c => isAlnumB c || c == ' ' || c == '-' || c == '_'))

theorem pyReplaceGo_single (a : Char) (rep : Str) :
    ∀ s : Str, pyReplaceGo [a] rep 0 s = s.flatMap (fun c => if c = a then rep else [c]) := by
  intro s
  induction s with
  | nil => rfl
  | cons c rest ih =>
    by_cases h : c = a
    · subst h
      simp [pyReplaceGo, List.isPrefixOf, ih]
    · have hba : (a == c) = false := by
        simp [beq_iff_eq]
        exact fun hh => h hh.symm
      simp [pyReplaceGo, List.isPrefixOf, hba, ih, h]

theorem escape_rtf_eq (s : Str) :
    escape_rtf s = s.flatMap escChar := by
  unfold escape_rtf pyReplace
  rw [pyReplaceGo_single, pyReplaceGo_single, pyReplaceGo_single]
  induction s with
  | nil => rfl
  | cons c rest ih =>
    rw [List.flatMap_cons, List.flatMap_append, List.flatMap_append, List.flatMap_cons, ih]
    congr 1
    by_cases h1 : c = bsC
    · subst h1; simp [escChar, bsC, lbC, rbC]
    · by_cases h2 : c = lbC
      · subst h2; simp [escChar, bsC, lbC, rbC]
      · by_cases h3 : c = rbC
        · subst h3; simp [escChar, bsC, lbC, rbC]
        · simp [escChar, h1, h2, h3]

/-- Claim C8: `escape_rtf` doubles each backslash, escapes each brace with a
single backslash, alters no other character, and never re-escapes the inserted
backslashes: it acts as the per-character escaping `escChar`, applied exactly
once to each original character. -/
theorem claim_C8_escape_rtf (s : Str) : escape_rtf s = s.flatMap escChar :=
  escape_rtf_eq s

/-- One row of the judges table (columns Number, Name, Category, Type, Print).
The `Type` column is `jtype` here (`Type` is reserved in Lean). -/
structure Judge where
  name : Str
  category : Str
  jtype : Str
  print : Bool
  number : Int
deriving DecidableEq

/-- One row of the competitors table (columns Number, Name, Director, Print). -/
structure Comp where
  number : Int
  name : Str
  director : Str
  print : Bool
deriving DecidableEq

/-- The category code `"MUS"`. -/
def sMUS : Str := str "MUS"

/-- The category code `"PER"`. -/
def sPER : Str := str "PER"

/-- The category code `"SNG"`. -/
def sSNG : Str := str "SNG"

/-- The type value `"Official"`. -/
def sOfficial : Str := str "Official"

/-- The type value `"Practice"`. -/
def sPractice : Str := str "Practice"

/-- `df['Category'].astype(str).str.upper().str.strip()`. -/
def cleanCat (s : Str) : Str := pyStrip (pyUpper s)

/-- `df['Type'].astype(str).str.title().str.strip()`. -/
def cleanType (s : Str) : Str := pyStrip (pyTitle s)

/-- The data-cleaning step (step 1) of `calculate_numbers`, acting on one row. -/
def cleanRow (r : Judge) : Judge :=
  { r with category := cleanCat r.category, jtype := cleanType r.jtype }

/-- `cat_sorter` (`{'MUS': 0, 'PER': 1, 'SNG': 2}`) with `fillna(99)`. -/
def catRank (c : Str) : Nat :=
  if c = sMUS then 0 else if c = sPER then 1 else if c = sSNG then 2 else 99

/-- `type_sorter` (`{'Official': 0, 'Practice': 1}`) with `fillna(99)`. -/
def typeRank (t : Str) : Nat :=
  if t = sOfficial then 0 else if t = sPractice then 1 else 99

/-- The sort key `(Sort_Cat, Sort_Type, Sort_Last_Name)` of a row. -/
def key (r : Judge) : Nat × Nat × Str :=
  (catRank r.category, typeRank r.jtype, lastTok r.name)

/-- Lexicographic comparison of sort keys. -/
def keyLE (a b : Nat × Nat × Str) : Bool :=
  if a.1 < b.1 then true
  else if b.1 < a.1 then false
  else if a.2.1 < b.2.1 then true
  else if b.2.1 < a.2.1 then false
  else strLE a.2.2 b.2.2

/-- Row comparison used by the sort. -/
def rowLE (a b : Judge) : Prop := keyLE (key a) (key b) = true

instance : DecidableRel rowLE := fun a b => by unfold rowLE; infer_instance

/-- `df.sort_values(by=['Sort_Cat', 'Sort_Type', 'Sort_Last_Name'])` (step 3):
a multi-column pandas sort is a stable sort by the lexicographic key (numpy
lexsort); a stable sort is computed by Mathlib's insertion sort. -/
def sortJudges (l : List Judge) : List Judge := List.insertionSort rowLE l

/-- `df.loc[mask, 'Number'] = range(n, n + count)`: rows matching the mask
receive `n, n+1, ...` in order of appearance; other rows are untouched. -/
def assignFor (p : Judge → Bool) : Int → List Judge → List Judge
  | _, [] => []
  | n, r :: rs =>
    if p r then { r with number := n } :: assignFor p (n + 1) rs
    else r :: assignFor p n rs

/-- `mask_official` for one category. -/
def isOffCat (cat : Str) (r : Judge) : Bool := r.category == cat && r.jtype == sOfficial

/-- `mask_practice` for one category. -/
def isPracCat (cat : Str) (r : Judge) : Bool := r.category == cat && r.jtype == sPractice

/-- Official in any category (the cleaned `Type` is `"Official"`). -/
def isOfficialB (r : Judge) : Bool := r.jtype == sOfficial

/-- Step 4 of `calculate_numbers`: for each category in MUS, PER, SNG order,
number its Official judges continuing from `current_official_num` (which
starts at 1 and advances by each category's Official count) and its Practice
judges from 50. -/
def renumber (l : List Judge) : List Judge :=
  let m : Nat := l.countP (isOffCat sMUS)
  let p : Nat := l.countP (isOffCat sPER)
  assignFor (isPracCat sSNG) 50
    (assignFor (isOffCat sSNG) (1 + (m : Int) + (p : Int))
      (assignFor (isPracCat sPER) 50
        (assignFor (isOffCat sPER) (1 + (m : Int))
          (assignFor (isPracCat sMUS) 50
            (assignFor (isOffCat sMUS) 1 l)))))

/-- `calculate_numbers` (app.py lines 244-293): clean the Category and Type
columns, sort by category rank, type rank and last-name token (stable), then
assign numbers; the helper sort columns are dropped again. -/
def calculate_numbers (df : List Judge) : List Judge :=
  renumber (sortJudges (df.map cleanRow))

/-- The placeholder row `"Absent <CAT> Judge"` appended by
`balance_and_sort_judges`. -/
def mkAbsent (cat : Str) : Judge :=
  { name := str "Absent " ++ cat ++ str " Judge", category := cat,
    jtype := sOfficial, print := false, number := 0 }

/-- `balance_and_sort_judges` (app.py lines 210-242): pad every category's
Official count up to the maximum with placeholder rows. -/
def balance_and_sort_judges (df : List Judge) : List Judge :=
  let cnt := fun cat => df.countP (fun r => r.category == cat && r.jtype == sOfficial)
  let maxCount := max (cnt sMUS) (max (cnt sPER) (cnt sSNG))
  if maxCount > 0 then
    df ++ ([sMUS, sPER, sSNG].flatMap fun cat =>
      List.replicate (maxCount - cnt cat) (mkAbsent cat))
  else df

/-- Contest context: district, session, and the already-formatted date. -/
structure Ctx where
  district : Str
  session : Str
  date : Str
deriving DecidableEq

/-- The text overlay drawn by `create_overlay` from `get_page_data`: its
rendered content is a function of exactly these fields. -/
structure Overlay where
  judge_name : Str
  judge_num : Int
  comp_name : Str
  comp_num : Int
  director : Str
  district : Str
  session : Str
  date : Str
  is_short : Bool
deriving DecidableEq

/-- A pypdf `Transformation` as used by the app: either
`scale(s, s).translate(tx, ty)` or `rotate(180).translate(tx, ty)`. -/
inductive Transform where
  | scaleTranslate (s tx ty : ℚ)
  | rotate180Translate (tx ty : ℚ)
deriving DecidableEq

/-- The affine action of a transformation on a point. -/
def Transform.apply : Transform → ℚ × ℚ → ℚ × ℚ
  | .scaleTranslate s tx ty, (x, y) => (s * x + tx, s * y + ty)
  | .rotate180Translate tx ty, (x, y) => (tx - x, ty - y)

/-- An overlay PDF page: its mediabox, drawn content, and the accumulated
transformations added by `add_transformation`. -/
structure OvlPage where
  mediabox : ℚ × ℚ
  content : Overlay
  transforms : List Transform
deriving DecidableEq

/-- `get_page_data` plus `create_overlay`: a letter-sized (612 x 792 points)
overlay page carrying the judge/competitor/contest data. -/
def create_overlay (j : Judge) (c : Comp) (ctx : Ctx) (is_short : Bool) : OvlPage :=
  { mediabox := (612, 792),
    content :=
      { judge_name := j.name, judge_num := j.number,
        comp_name := c.name, comp_num := c.number, director := c.director,
        district := ctx.district, session := ctx.session, date := ctx.date,
        is_short := is_short },
    transforms := [] }

/-- `apply_margin_to_page` (app.py lines 48-79): compute the uniform shrink
factor for the safe area and the centering offset, and add the
scale-then-translate transformation; the mediabox is untouched. -/
def apply_margin_to_page (page : OvlPage) (margin_inch : ℚ := 1/4) : OvlPage :=
  let margin_pt := margin_inch * 72
  let width := page.mediabox.1
  let height := page.mediabox.2
  let safe_width := width - 2 * margin_pt
  let safe_height := height - 2 * margin_pt
  let scale_x := safe_width / width
  let scale_y := safe_height / height
  let scale := min scale_x scale_y
  let tx := (width - width * scale) / 2
  let ty := (height - height * scale) / 2
  { page with transforms := page.transforms ++ [Transform.scaleTranslate scale tx ty] }

/-- `overlay2.add_transformation(Transformation().rotate(180).translate(tx=612,
ty=792))`: the extra transformation given to the second overlay of a
short-form pair. -/
def flipSecond (p : OvlPage) : OvlPage :=
  { p with transforms := p.transforms ++ [Transform.rotate180Translate 612 792] }

/-- One physical page of generated output: a template page with the merged
overlay pages. -/
structure Page where
  template : Str
  pageIndex : Nat
  merged : List OvlPage
deriving DecidableEq

/-- `FORMAT_MAPPING` with the `.get(cat, [])` default. -/
def FORMAT_MAPPING (cat : Str) : List Str :=
  if cat = sMUS then [str "MUS_Long.pdf", str "MUS_Short.pdf"]
  else if cat = sPER then [str "PER_Long.pdf", str "PER_Short.pdf"]
  else if cat = sSNG then [str "SNG_Long.pdf", str "SNG_Short.pdf"]
  else []

/-- The short-form branch (app.py lines 612-634 and 720-739, identical in the
two generation options): competitors are processed in pairs; slot 1 gets the
first competitor's margin-scaled overlay; when a second competitor exists, its
margin-scaled overlay additionally gets the rotate-180-then-translate
transformation before being merged onto the same template page. -/
def shortFormPages (t : Str) (j : Judge) (ctx : Ctx) : List Comp → List Page
  | [] => []
  | [c1] => [{ template := t, pageIndex := 0,
               merged := [apply_margin_to_page (create_overlay j c1 ctx true)] }]
  | c1 :: c2 :: rest =>
    { template := t, pageIndex := 0,
      merged := [apply_margin_to_page (create_overlay j c1 ctx true),
                 flipSecond (apply_margin_to_page (create_overlay j c2 ctx true))] }
      :: shortFormPages t j ctx rest

/-- The long-form branch for one competitor (app.py lines 636-652): every page
of the template is copied and the margin-scaled overlay is merged onto page 0
only. -/
def longFormPages (numPages : Nat) (t : Str) (j : Judge) (ctx : Ctx) (c : Comp) : List Page :=
  (List.range numPages).map fun i =>
    { template := t, pageIndex := i,
      merged := if i = 0 then [apply_margin_to_page (create_overlay j c ctx false)] else [] }

/-- The template directory: which template files exist and how many pages each
has. -/
structure TemplateEnv where
  present : Str → Bool
  numPages : Str → Nat

/-- Option 1 (By Judge), inner loop for one judge (app.py lines 591-652):
templates whose name does not contain "Long" are skipped, missing files are
skipped, then the short or long branch runs over the active competitors. -/
def judgePacketPages (env : TemplateEnv) (ctx : Ctx) (j : Judge) (comps : List Comp) :
    List Page :=
  (FORMAT_MAPPING j.category).flatMap fun t =>
    if !(containsSub (str "Long") t) then []
    else if !(env.present t) then []
    else if containsSub (str "Short") t then shortFormPages t j ctx comps
    else comps.flatMap (longFormPages (env.numPages t) t j ctx)

/-- Option 1 (By Judge), full generation (app.py lines 576-659): judges and
competitors are filtered to `Print`, judges with number 0 are skipped, and a
document (filename, pages) is emitted for each judge that produced pages. -/
def option1Generated (env : TemplateEnv) (ctx : Ctx) (judges : List Judge)
    (comps : List Comp) : List (Str × List Page) :=
  let activeJ := judges.filter (fun j => j.print)
  let activeC := comps.filter (fun c => c.print)
  activeJ.flatMap fun j =>
    if j.number = 0 then []
    else
      let pages := judgePacketPages env ctx j activeC
      if pages.length > 0 then
        [(clean_filename ctx.session ++ str "_" ++ clean_filename j.name ++ str "_"
            ++ clean_filename ctx.date ++ str ".pdf", pages)]
      else []

/-- Option 2 (By Category), pages for one category and template file (app.py
lines 717-754): each judge of the category with nonzero number contributes
short-form or long-form pages for all active competitors. -/
def catFormatPages (env : TemplateEnv) (ctx : Ctx) (t : Str) (catJudges : List Judge)
    (comps : List Comp) : List Page :=
  catJudges.flatMap fun j =>
    if j.number = 0 then []
    else if containsSub (str "Short") t then shortFormPages t j ctx comps
    else comps.flatMap (longFormPages (env.numPages t) t j ctx)

/-- Option 2 (By Category), full generation (app.py lines 695-761). -/
def option2Generated (env : TemplateEnv) (ctx : Ctx) (judges : List Judge)
    (comps : List Comp) : List (Str × List Page) :=
  let activeJ := judges.filter (fun j => j.print)
  let activeC := comps.filter (fun c => c.print)
  [sMUS, sPER, sSNG].flatMap fun cat =>
    let catJudges := activeJ.filter (fun j => j.category == cat)
    if catJudges.isEmpty then []
    else
      (FORMAT_MAPPING cat).flatMap fun t =>
        if !(env.present t) then []
        else
          let pages := catFormatPages env ctx t catJudges activeC
          if pages.length > 0 then
            [(clean_filename ctx.session ++ str "_" ++ pyReplace (str ".pdf") [] t
                ++ str "_" ++ clean_filename ctx.date ++ str ".pdf", pages)]
          else []

/-- The judge/competitor blocks emitted by `generate_rtf_content` (app.py lines
89-137): judges with number 0 are filtered out first (line 91). -/
def rtfBlocks (judges_df : List Judge) (competitors_df : List Comp) : List (Judge × Comp) :=
  (judges_df.filter (fun j => j.number != 0)).flatMap fun j =>
    competitors_df.map fun c => (j, c)

/-- Option 3 (Create Labels Only) for one category (app.py lines 793-800):
`generate_rtf_content` is called with the active judges of the category and the
active competitors. -/
def option3Blocks (judges : List Judge) (comps : List Comp) (cat : Str) :
    List (Judge × Comp) :=
  rtfBlocks ((judges.filter (fun j => j.print)).filter (fun j => j.category == cat))
    (comps.filter (fun c => c.print))

/-- Pairing of judges, two per label row (app.py lines 155-157). -/
def folderRows : List Judge → List (Judge × Option Judge)
  | [] => []
  | [j1] => [(j1, none)]
  | j1 :: j2 :: rest => (j1, some j2) :: folderRows rest

/-- `generate_folder_labels_rtf`'s label rows (app.py lines 151-157): judges
are filtered to `Print` set and nonzero number, then paired two per row. -/
def folderLabelRows (judges_df : List Judge) : List (Judge × Option Judge) :=
  folderRows ((judges_df.filter (fun j => j.print)).filter (fun j => j.number != 0))

theorem twoStepInd {α : Type _} {motive : List α → Prop} (h0 : motive [])
    (h1 : ∀ c, motive [c])
    (h2 : ∀ c1 c2 rest, motive rest → motive (c1 :: c2 :: rest)) : ∀ l, motive l := by
  have key : ∀ l : List α, motive l ∧ ∀ c, motive (c :: l) := by
    intro l
    induction l with
    | nil => exact ⟨h0, h1⟩
    | cons c rest ih => exact ⟨ih.2 c, fun c2 => h2 c2 c rest ih.1⟩
  exact fun l => (key l).1

theorem shortFormPages_length (t : Str) (j : Judge) (ctx : Ctx) :
    ∀ comps : List Comp,
      (shortFormPages t j ctx comps).length = (comps.length + 1) / 2 := by
  refine twoStepInd ?_ ?_ ?_
  · simp [shortFormPages]
  · intro c; simp [shortFormPages]
  · intro c1 c2 rest ih
    simp only [shortFormPages, List.length_cons, ih]
    omega

theorem shortFormPages_getElem (t : Str) (j : Judge) (ctx : Ctx) :
    ∀ (comps : List Comp) (k : Nat),
      (shortFormPages t j ctx comps)[k]? =
        (comps[2 * k]?).map fun c1 =>
          { template := t, pageIndex := 0,
            merged := [apply_margin_to_page (create_overlay j c1 ctx true)] ++
              ((comps[2 * k + 1]?).map fun c2 =>
                flipSecond (apply_margin_to_page (create_overlay j c2 ctx true))).toList } := by
  refine twoStepInd ?_ ?_ ?_
  · intro k; simp [shortFormPages]
  · intro c k
    match k with
    | 0 => simp [shortFormPages]
    | k + 1 =>
      have h1 : 2 * (k + 1) = 2 * k + 1 + 1 := by omega
      simp [shortFormPages, h1]
  · intro c1 c2 rest ih k
    match k with
    | 0 => simp [shortFormPages]
    | k + 1 =>
      have h1 : 2 * (k + 1) = 2 * k + 1 + 1 := by omega
      have h2 : 2 * (k + 1) + 1 = 2 * k + 1 + 1 + 1 := by omega
      simp only [shortFormPages, h1, h2, List.getElem?_cons_succ]
      exact ih k

/-- Claim C5: short-form composition over an ordered competitor list yields
exactly `ceil(N/2)` pages; page `k` exists exactly when competitor `2k` does;
its first slot is the margin-scaled overlay of competitor `2k` with no further
transformation, and its second slot, present exactly when competitor `2k+1`
exists, is that competitor's margin-scaled overlay with the additional
rotate-180-then-translate-(612, 792) transformation; for odd `N` the final
page has only slot 1. -/
theorem claim_C5_short_form_pairing (t : Str) (j : Judge) (ctx : Ctx)
    (comps : List Comp) (k : Nat) :
    (shortFormPages t j ctx comps).length = (comps.length + 1) / 2 ∧
    (shortFormPages t j ctx comps)[k]? =
      (comps[2 * k]?).map fun c1 =>
        { template := t, pageIndex := 0,
          merged := [apply_margin_to_page (create_overlay j c1 ctx true)] ++
            ((comps[2 * k + 1]?).map fun c2 =>
              flipSecond (apply_margin_to_page (create_overlay j c2 ctx true))).toList } :=
  ⟨shortFormPages_length t j ctx comps, shortFormPages_getElem t j ctx comps k⟩

/-- Claim C6: with positive page dimensions and a margin below half the
smaller dimension, `apply_margin_to_page` leaves the mediabox unchanged and
appends exactly the uniform scale `min((w-2m)/w, (h-2m)/h)` followed by the
centering translation; the image of any point of the original content area
under that transformation stays at least `m` points away from every page
edge. -/
theorem claim_C6_apply_margin (w h mi m x y s tx ty : ℚ) (ov : Overlay)
    (ts : List Transform)
    (hm' : m = mi * 72)
    (hs : s = min ((w - 2 * m) / w) ((h - 2 * m) / h))
    (htx : tx = (w - w * s) / 2) (hty : ty = (h - h * s) / 2)
    (hw : 0 < w) (hh : 0 < h) (hmm : 2 * m < min w h)
    (hx0 : 0 ≤ x) (hxw : x ≤ w) (hy0 : 0 ≤ y) (hyh : y ≤ h) :
    (apply_margin_to_page ⟨(w, h), ov, ts⟩ mi).mediabox = (w, h)
    ∧ (apply_margin_to_page ⟨(w, h), ov, ts⟩ mi).transforms
        = ts ++ [Transform.scaleTranslate s tx ty]
    ∧ (Transform.scaleTranslate s tx ty).apply (x, y) = (s * x + tx, s * y + ty)
    ∧ m ≤ s * x + tx ∧ s * x + tx ≤ w - m
    ∧ m ≤ s * y + ty ∧ s * y + ty ≤ h - m := by
  have hwm : 2 * m < w := lt_of_lt_of_le hmm (min_le_left _ _)
  have hhm : 2 * m < h := lt_of_lt_of_le hmm (min_le_right _ _)
  have hsx : s ≤ (w - 2 * m) / w := hs ▸ min_le_left _ _
  have hsy : s ≤ (h - 2 * m) / h := hs ▸ min_le_right _ _
  have hs0 : 0 < s := by
    rw [hs]
    exact lt_min (div_pos (by linarith) hw) (div_pos (by linarith) hh)
  have hws : w * s ≤ w - 2 * m := by
    calc w * s ≤ w * ((w - 2 * m) / w) := mul_le_mul_of_nonneg_left hsx (le_of_lt hw)
    _ = w - 2 * m := by field_simp
  have hhs : h * s ≤ h - 2 * m := by
    calc h * s ≤ h * ((h - 2 * m) / h) := mul_le_mul_of_nonneg_left hsy (le_of_lt hh)
    _ = h - 2 * m := by field_simp
  have hsx0 : 0 ≤ s * x := mul_nonneg (le_of_lt hs0) hx0
  have hsy0 : 0 ≤ s * y := mul_nonneg (le_of_lt hs0) hy0
  have hsxw : s * x ≤ w * s := by
    calc s * x ≤ s * w := mul_le_mul_of_nonneg_left hxw (le_of_lt hs0)
    _ = w * s := mul_comm s w
  have hsyh : s * y ≤ h * s := by
    calc s * y ≤ s * h := mul_le_mul_of_nonneg_left hyh (le_of_lt hs0)
    _ = h * s := mul_comm s h
  refine ⟨rfl, ?_, rfl, ?_, ?_, ?_, ?_⟩
  · show ts ++ [Transform.scaleTranslate
      (min ((w - 2 * (mi * 72)) / w) ((h - 2 * (mi * 72)) / h)) _ _] = _
    rw [← hm', ← hs, ← htx, ← hty]
  · rw [htx]; linarith
  · rw [htx]; linarith
  · rw [hty]; linarith
  · rw [hty]; linarith

/-- Concrete instantiation of the margin theorem on the letter page with the
default quarter-inch margin and the content point (100, 200). -/
theorem claim_C6_apply_margin_witness :
    ((18 : ℚ) = (1/4) * 72 ∧ (16/17 : ℚ) = min ((612 - 2 * 18) / 612) ((792 - 2 * 18) / 792)
      ∧ (18 : ℚ) = (612 - 612 * (16/17)) / 2 ∧ (396/17 : ℚ) = (792 - 792 * (16/17)) / 2
      ∧ (0 : ℚ) < 612 ∧ (0 : ℚ) < 792 ∧ (2 : ℚ) * 18 < min 612 792
      ∧ (0 : ℚ) ≤ 100 ∧ (100 : ℚ) ≤ 612 ∧ (0 : ℚ) ≤ 200 ∧ (200 : ℚ) ≤ 792)
    ∧ ((apply_margin_to_page ⟨(612, 792),
          ⟨[], 0, [], 0, [], [], [], [], false⟩, []⟩ (1/4)).mediabox = (612, 792)
        ∧ (apply_margin_to_page ⟨(612, 792),
            ⟨[], 0, [], 0, [], [], [], [], false⟩, []⟩ (1/4)).transforms
            = [] ++ [Transform.scaleTranslate (16/17) 18 (396/17)]
        ∧ (Transform.scaleTranslate (16/17) 18 (396/17)).apply (100, 200)
            = ((16/17) * 100 + 18, (16/17) * 200 + 396/17)
        ∧ (18 : ℚ) ≤ (16/17) * 100 + 18 ∧ (16/17 : ℚ) * 100 + 18 ≤ 612 - 18
        ∧ (18 : ℚ) ≤ (16/17) * 200 + 396/17 ∧ (16/17 : ℚ) * 200 + 396/17 ≤ 792 - 18) := by
  constructor
  · refine ⟨by norm_num, ?_, by norm_num, by norm_num, by norm_num, by norm_num,
      ?_, by norm_num, by norm_num, by norm_num, by norm_num⟩
    · rw [min_def]; norm_num
    · rw [min_def]; norm_num
  · exact claim_C6_apply_margin 612 792 (1/4) 18 100 200 (16/17) 18 (396/17)
      ⟨[], 0, [], 0, [], [], [], [], false⟩ []
      (by norm_num) (by rw [min_def]; norm_num) (by norm_num) (by norm_num)
      (by norm_num) (by norm_num) (by rw [min_def]; norm_num)
      (by norm_num) (by norm_num) (by norm_num) (by norm_num)

theorem longFormPages_mem {n : Nat} {t : Str} {j : Judge} {ctx : Ctx} {c : Comp} {p : Page}
    (hp : p ∈ longFormPages n t j ctx c) :
    p.template = t ∧ ∀ o ∈ p.merged,
      o.content.is_short = false ∧ o.content.judge_num = j.number := by
  unfold longFormPages at hp
  rw [List.mem_map] at hp
  obtain ⟨i, _, rfl⟩ := hp
  refine ⟨rfl, ?_⟩
  intro o ho
  by_cases hi : i = 0
  · subst hi
    simp at ho
    subst ho
    exact ⟨rfl, rfl⟩
  · simp [hi] at ho

theorem shortFormPages_mem (t : Str) (j : Judge) (ctx : Ctx) :
    ∀ (comps : List Comp) (p : Page), p ∈ shortFormPages t j ctx comps →
      p.template = t ∧ ∀ o ∈ p.merged,
        o.content.is_short = true ∧ o.content.judge_num = j.number := by
  refine twoStepInd ?_ ?_ ?_
  · intro p hp; simp [shortFormPages] at hp
  · intro c p hp
    simp only [shortFormPages, List.mem_singleton] at hp
    subst hp
    refine ⟨rfl, ?_⟩
    intro o ho
    simp only [List.mem_singleton] at ho
    subst ho
    exact ⟨rfl, rfl⟩
  · intro c1 c2 rest ih p hp
    simp only [shortFormPages, List.mem_cons] at hp
    rcases hp with rfl | hp
    · refine ⟨rfl, ?_⟩
      intro o ho
      simp only [List.mem_cons, List.mem_singleton, List.not_mem_nil, or_false] at ho
      rcases ho with rfl | rfl
      · exact ⟨rfl, rfl⟩
      · exact ⟨rfl, rfl⟩
    · exact ih p hp

theorem packetBody_mem (env : TemplateEnv) (ctx : Ctx) (j : Judge) (comps : List Comp)
    (t : Str) (p : Page)
    (hp : p ∈ (if !(containsSub (str "Long") t) then ([] : List Page)
      else if !(env.present t) then []
      else if containsSub (str "Short") t then shortFormPages t j ctx comps
      else comps.flatMap (longFormPages (env.numPages t) t j ctx))) :
    containsSub (str "Long") t = true ∧ p.template = t ∧
      ∀ o ∈ p.merged, o.content.judge_num = j.number ∧
        o.content.is_short = containsSub (str "Short") t := by
  by_cases hL : containsSub (str "Long") t
  · rw [hL] at hp
    simp only [Bool.not_true, Bool.false_eq_true, if_false] at hp
    by_cases hpr : env.present t
    · rw [hpr] at hp
      simp only [Bool.not_true, Bool.false_eq_true, if_false] at hp
      by_cases hS : containsSub (str "Short") t
      · rw [if_pos hS] at hp
        obtain ⟨hpt, ho⟩ := shortFormPages_mem t j ctx comps p hp
        refine ⟨hL, hpt, ?_⟩
        intro o hoo
        obtain ⟨h1, h2⟩ := ho o hoo
        rw [hS]
        exact ⟨h2, h1⟩
      · rw [if_neg hS] at hp
        rw [List.mem_flatMap] at hp
        obtain ⟨c, _, hp⟩ := hp
        obtain ⟨hpt, ho⟩ := longFormPages_mem hp
        refine ⟨hL, hpt, ?_⟩
        intro o hoo
        obtain ⟨h1, h2⟩ := ho o hoo
        rw [Bool.not_eq_true] at hS
        rw [hS]
        exact ⟨h2, h1⟩
    · rw [Bool.not_eq_true] at hpr
      rw [hpr] at hp
      simp at hp
  · rw [Bool.not_eq_true] at hL
    rw [hL] at hp
    simp at hp

theorem fm_long_not_short (cat t : Str) (ht : t ∈ FORMAT_MAPPING cat)
    (hL : containsSub (str "Long") t = true) :
    containsSub (str "Short") t = false := by
  unfold FORMAT_MAPPING at ht
  split_ifs at ht <;> simp only [List.mem_cons, List.mem_singleton,
    List.not_mem_nil, or_false] at ht
  · rcases ht with rfl | rfl
    · decide
    · exact absurd hL (by decide)
  · rcases ht with rfl | rfl
    · decide
    · exact absurd hL (by decide)
  · rcases ht with rfl | rfl
    · decide
    · exact absurd hL (by decide)

theorem judgePacketPages_mem (env : TemplateEnv) (ctx : Ctx) (j : Judge)
    (comps : List Comp) (p : Page) (hp : p ∈ judgePacketPages env ctx j comps) :
    containsSub (str "Long") p.template = true
    ∧ containsSub (str "Short") p.template = false
    ∧ ∀ o ∈ p.merged, o.content.judge_num = j.number ∧ o.content.is_short = false := by
  unfold judgePacketPages at hp
  rw [List.mem_flatMap] at hp
  obtain ⟨t, ht, hp⟩ := hp
  obtain ⟨hL, hpt, ho⟩ := packetBody_mem env ctx j comps t p hp
  have hS := fm_long_not_short _ t ht hL
  subst hpt
  refine ⟨hL, hS, ?_⟩
  intro o hoo
  obtain ⟨h1, h2⟩ := ho o hoo
  rw [hS] at h2
  exact ⟨h1, h2⟩

/-- Claim C7: in Per-Judge generation every template whose filename does not
contain "Long" is skipped entirely: each of the three categories' usable
template lists reduces to its Long template alone, every generated page comes
from a template containing "Long" (and not "Short"), and no short-form overlay
is ever produced in this mode. -/
theorem claim_C7_per_judge_long_only (env : TemplateEnv) (ctx : Ctx) (j : Judge)
    (comps : List Comp) :
    ((judgePacketPages env ctx j comps).all fun p =>
      containsSub (str "Long") p.template && !(containsSub (str "Short") p.template)
        && p.merged.all fun o => o.content.is_short == false) = true
    ∧ (FORMAT_MAPPING sMUS).filter (fun t => containsSub (str "Long") t)
        = [str "MUS_Long.pdf"]
    ∧ (FORMAT_MAPPING sPER).filter (fun t => containsSub (str "Long") t)
        = [str "PER_Long.pdf"]
    ∧ (FORMAT_MAPPING sSNG).filter (fun t => containsSub (str "Long") t)
        = [str "SNG_Long.pdf"] := by
  refine ⟨?_, by decide, by decide, by decide⟩
  rw [List.all_eq_true]
  intro p hp
  obtain ⟨hL, hS, ho⟩ := judgePacketPages_mem env ctx j comps p hp
  rw [hL, hS]
  simp only [Bool.not_false, Bool.true_and, List.all_eq_true]
  intro o hoo
  rw [(ho o hoo).2]
  rfl

theorem catFormatPages_mem (env : TemplateEnv) (ctx : Ctx) (t : Str)
    (catJudges : List Judge) (comps : List Comp) (p : Page)
    (hp : p ∈ catFormatPages env ctx t catJudges comps) :
    ∀ o ∈ p.merged, o.content.judge_num ≠ 0 := by
  unfold catFormatPages at hp
  rw [List.mem_flatMap] at hp
  obtain ⟨j, hj, hp⟩ := hp
  by_cases h0 : j.number = 0
  · simp [h0] at hp
  · rw [if_neg h0] at hp
    by_cases hS : containsSub (str "Short") t
    · rw [if_pos hS] at hp
      intro o ho
      rw [((shortFormPages_mem t j ctx comps p hp).2 o ho).2]
      exact h0
    · rw [if_neg hS] at hp
      rw [List.mem_flatMap] at hp
      obtain ⟨c, _, hp⟩ := hp
      intro o ho
      rw [((longFormPages_mem hp).2 o ho).2]
      exact h0

theorem folderRows_all (q : Judge → Bool) :
    ∀ l : List Judge, l.all q = true →
      ((folderRows l).all fun row => q row.1 && row.2.all q) = true := by
  refine twoStepInd ?_ ?_ ?_
  · intro _; rfl
  · intro c h
    simp only [List.all_cons, List.all_nil, Bool.and_true] at h
    simp [folderRows, h, Option.all]
  · intro c1 c2 rest ih h
    simp only [List.all_cons, Bool.and_eq_true] at h
    obtain ⟨h1, h2, h3⟩ := h
    have hr := ih h3
    have hfr : folderRows (c1 :: c2 :: rest) = (c1, some c2) :: folderRows rest := rfl
    rw [hfr, List.all_cons, hr]
    simp [h1, h2, Option.all]

/-- Claim C3: in each of the four generation modes — per-judge PDF packets,
per-category PDFs, contest-label RTF blocks, and folder-label RTF rows — a
judge whose number is 0 contributes nothing to the output: no merged overlay
of any per-judge or per-category page carries judge number 0, no RTF block
belongs to such a judge, and no folder-label slot holds one, for every input
table (regardless of the print flags). -/
theorem claim_C3_number_zero_excluded (env : TemplateEnv) (ctx : Ctx)
    (judges : List Judge) (comps : List Comp) (cat : Str) :
    ((option1Generated env ctx judges comps).all fun d =>
      d.2.all fun p => p.merged.all fun o => o.content.judge_num != 0) = true
    ∧ ((option2Generated env ctx judges comps).all fun d =>
      d.2.all fun p => p.merged.all fun o => o.content.judge_num != 0) = true
    ∧ ((option3Blocks judges comps cat).all fun b => b.1.number != 0) = true
    ∧ ((folderLabelRows judges).all fun row =>
        row.1.number != 0 && row.2.all fun j2 => j2.number != 0) = true := by
  refine ⟨?_, ?_, ?_, ?_⟩
  · rw [List.all_eq_true]
    intro d hd
    simp only [option1Generated, List.mem_flatMap] at hd
    obtain ⟨j, hj, hd⟩ := hd
    by_cases h0 : j.number = 0
    · simp [h0] at hd
    · rw [if_neg h0] at hd
      by_cases hlen : (judgePacketPages env ctx j (comps.filter (fun c => c.print))).length > 0
      · rw [if_pos hlen, List.mem_singleton] at hd
        subst hd
        rw [List.all_eq_true]
        intro p hp
        rw [List.all_eq_true]
        intro o ho
        rw [bne_iff_ne]
        rw [((judgePacketPages_mem env ctx j _ p hp).2.2 o ho).1]
        exact h0
      · rw [if_neg hlen] at hd
        simp at hd
  · rw [List.all_eq_true]
    intro d hd
    simp only [option2Generated, List.mem_flatMap] at hd
    obtain ⟨c, hc, hd⟩ := hd
    by_cases hemp : ((judges.filter (fun j => j.print)).filter
        (fun j => j.category == c)).isEmpty
    · rw [if_pos hemp] at hd
      simp at hd
    · rw [if_neg hemp, List.mem_flatMap] at hd
      obtain ⟨t, ht, hd⟩ := hd
      by_cases hpr : env.present t
      · rw [hpr] at hd
        simp only [Bool.not_true, Bool.false_eq_true, if_false] at hd
        by_cases hlen : (catFormatPages env ctx t
            ((judges.filter (fun j => j.print)).filter (fun j => j.category == c))
            (comps.filter (fun cc => cc.print))).length > 0
        · rw [if_pos hlen, List.mem_singleton] at hd
          subst hd
          rw [List.all_eq_true]
          intro p hp
          rw [List.all_eq_true]
          intro o ho
          rw [bne_iff_ne]
          exact catFormatPages_mem env ctx t _ _ p hp o ho
        · rw [if_neg hlen] at hd
          simp at hd
      · rw [Bool.not_eq_true] at hpr
        rw [hpr] at hd
        simp at hd
  · rw [List.all_eq_true]
    intro b hb
    simp only [option3Blocks, rtfBlocks, List.mem_flatMap] at hb
    obtain ⟨j, hj, hb⟩ := hb
    rw [List.mem_filter] at hj
    rw [List.mem_map] at hb
    obtain ⟨c, _, rfl⟩ := hb
    exact hj.2
  · unfold folderLabelRows
    refine folderRows_all (fun j => j.number != 0) _ ?_
    rw [List.all_eq_true]
    intro j hj
    rw [List.mem_filter] at hj
    exact hj.2

/-- The end-to-end scenario context: district "Example", session "Quartet
Semi-Finals", date 2024-05-01 formatted by the app as `"%m/%d/%Y"`. -/
def ctx9 : Ctx := ⟨str "Example", str "Quartet Semi-Finals", str "05/01/2024"⟩

/-- The scenario's single MUS judge (number 1, print set). -/
def judge9 : Judge := ⟨str "John Smith", str "MUS", str "Official", true, 1⟩

/-- The scenario's single competitor (number 10, "Test Quartet", print set). -/
def comp9 : Comp := ⟨10, str "Test Quartet", str "", true⟩

/-- The scenario's template directory: only the single-page MUS Long template
exists. -/
def env9 : TemplateEnv :=
  ⟨fun t => t == str "MUS_Long.pdf", fun t => if t == str "MUS_Long.pdf" then 1 else 0⟩

/-- Counterexample to claim C9: in the stated scenario Per-Judge mode does
produce exactly one PDF, but its filename is
`"Quartet Semi-Finals_John Smith_05-01-2024.pdf"` — `clean_filename` keeps
spaces, so the session component retains its space and the claimed name
`"Quartet_Semi-Finals_..."` (underscore after "Quartet") is not produced. -/
theorem claim_C9_counterexample :
    (option1Generated env9 ctx9 [judge9] [comp9]).map Prod.fst
      = [str "Quartet Semi-Finals_John Smith_05-01-2024.pdf"]
    ∧ clean_filename (str "Quartet Semi-Finals") = str "Quartet Semi-Finals"
    ∧ str "Quartet Semi-Finals_John Smith_05-01-2024.pdf"
        ≠ str "Quartet_Semi-Finals_John Smith_05-01-2024.pdf" := by decide

/-- Claim C9 as amended: in the scenario (district "Example", session "Quartet
Semi-Finals", date 2024-05-01, one MUS judge "John Smith" number 1 print=true,
one competitor number 10 "Test Quartet" print=true, only the single-page MUS
Long template present), Per-Judge mode produces exactly one PDF with exactly
one composed page, named `"Quartet Semi-Finals_John Smith_05-01-2024.pdf"`
(session, judge name and date each sanitized by `clean_filename`, which keeps
the session's space). -/
theorem claim_C9_amended :
    (option1Generated env9 ctx9 [judge9] [comp9]).map (fun d => (d.1, d.2.length))
      = [(clean_filename ctx9.session ++ str "_" ++ clean_filename judge9.name
          ++ str "_" ++ clean_filename ctx9.date ++ str ".pdf", 1)]
    ∧ clean_filename ctx9.session ++ str "_" ++ clean_filename judge9.name
          ++ str "_" ++ clean_filename ctx9.date ++ str ".pdf"
        = str "Quartet Semi-Finals_John Smith_05-01-2024.pdf" := by decide

/-- The integer sequence `n, n+1, ..., n+k-1` (the values of a Python
`range(n, n + k)` assignment). -/
def intRange (b : Int) (k : Nat) : List Int := (List.range k).map fun i => b + Int.ofNat i

/-- All row fields except the number. -/
def judgeShape (r : Judge) : Str × Bool × Str × Str := (r.name, r.print, r.category, r.jtype)

theorem intRange_cons (b : Int) (k : Nat) : intRange b (k + 1) = b :: intRange (b + 1) k := by
  unfold intRange
  rw [List.range_succ_eq_map, List.map_cons, List.map_map]
  congr 1
  · simp
  · apply List.map_congr_left
    intro i _
    simp only [Function.comp_apply, Int.ofNat_eq_natCast]
    push_cast
    ring

theorem intRange_append (b : Int) (j k : Nat) :
    intRange b j ++ intRange (b + (j : Int)) k = intRange b (j + k) := by
  induction j generalizing b with
  | zero => simp [intRange]
  | succ j ih =>
    have h2 : intRange b (j + 1 + k) = b :: intRange (b + 1) (j + k) := by
      have h3 : j + 1 + k = (j + k) + 1 := by omega
      rw [h3, intRange_cons]
    rw [intRange_cons, h2, List.cons_append]
    congr 1
    have h4 : b + Int.ofNat (j + 1) = (b + 1) + Int.ofNat j := by
      simp only [Int.ofNat_eq_natCast]
      push_cast
      ring
    rw [show (((j : Nat) + 1 : Nat) : Int) = Int.ofNat (j + 1) from rfl, h4,
      show Int.ofNat j = ((j : Nat) : Int) from rfl]
    exact ih (b + 1)

theorem assignFor_shape (p : Judge → Bool) :
    ∀ (n : Int) (l : List Judge), (assignFor p n l).map judgeShape = l.map judgeShape := by
  intro n l
  induction l generalizing n with
  | nil => rfl
  | cons r rs ih =>
    by_cases hp : p r
    · simp [assignFor, hp, judgeShape, ih]
    · simp [assignFor, hp, judgeShape, ih]

theorem assignFor_countP (p q : Judge → Bool)
    (hq : ∀ (r : Judge) (n : Int), q { r with number := n } = q r) :
    ∀ (n : Int) (l : List Judge), (assignFor p n l).countP q = l.countP q := by
  intro n l
  induction l generalizing n with
  | nil => rfl
  | cons r rs ih =>
    by_cases hp : p r
    · simp [assignFor, hp, List.countP_cons, ih, hq]
    · simp [assignFor, hp, List.countP_cons, ih]

theorem assignFor_filter_disjoint (p q : Judge → Bool)
    (hpq : ∀ r : Judge, q r = true → p r = false)
    (hq : ∀ (r : Judge) (n : Int), q { r with number := n } = q r) :
    ∀ (n : Int) (l : List Judge), (assignFor p n l).filter q = l.filter q := by
  intro n l
  induction l generalizing n with
  | nil => rfl
  | cons r rs ih =>
    by_cases hp : p r
    · have hqr : q r = false := by
        cases hqr2 : q r
        · rfl
        · exact absurd (hpq r hqr2) (by simp [hp])
      simp [assignFor, hp, List.filter_cons, hq, hqr, ih]
    · simp [assignFor, hp, List.filter_cons, ih]

theorem assignFor_filter_self (p : Judge → Bool)
    (hp : ∀ (r : Judge) (n : Int), p { r with number := n } = p r) :
    ∀ (n : Int) (l : List Judge),
      ((assignFor p n l).filter p).map (fun r => r.number) = intRange n (l.countP p) := by
  intro n l
  induction l generalizing n with
  | nil => simp [assignFor, intRange]
  | cons r rs ih =>
    by_cases hpr : p r
    · have h1 : assignFor p n (r :: rs) = { r with number := n } :: assignFor p (n + 1) rs := by
        simp [assignFor, hpr]
      have hpos : p { r with number := n } = true := by rw [hp]; exact hpr
      rw [h1, List.filter_cons_of_pos hpos, List.map_cons,
        List.countP_cons_of_pos _ _ hpr, intRange_cons]
      exact congrArg (List.cons n) (ih (n + 1))
    · simp [assignFor, hpr, List.filter_cons, List.countP_cons, ih]

theorem isOffCat_number (c : Str) (r : Judge) (n : Int) :
    isOffCat c { r with number := n } = isOffCat c r := rfl

theorem isPracCat_number (c : Str) (r : Judge) (n : Int) :
    isPracCat c { r with number := n } = isPracCat c r := rfl

theorem off_prac_disjoint (c c' : Str) (r : Judge) (h : isOffCat c r = true) :
    isPracCat c' r = false := by
  simp only [isOffCat, Bool.and_eq_true, beq_iff_eq] at h
  rw [Bool.eq_false_iff]
  intro hc
  simp only [isPracCat, Bool.and_eq_true, beq_iff_eq] at hc
  rw [h.2] at hc
  exact absurd hc.2 (by decide)

theorem prac_off_disjoint (c c' : Str) (r : Judge) (h : isPracCat c r = true) :
    isOffCat c' r = false := by
  simp only [isPracCat, Bool.and_eq_true, beq_iff_eq] at h
  rw [Bool.eq_false_iff]
  intro hc
  simp only [isOffCat, Bool.and_eq_true, beq_iff_eq] at hc
  rw [h.2] at hc
  exact absurd hc.2 (by decide)

theorem off_off_disjoint (c c' : Str) (hne : c' ≠ c) (r : Judge)
    (h : isOffCat c r = true) : isOffCat c' r = false := by
  simp only [isOffCat, Bool.and_eq_true, beq_iff_eq] at h
  rw [Bool.eq_false_iff]
  intro hc
  simp only [isOffCat, Bool.and_eq_true, beq_iff_eq] at hc
  rw [h.1] at hc
  exact hne hc.1.symm

theorem prac_prac_disjoint (c c' : Str) (hne : c' ≠ c) (r : Judge)
    (h : isPracCat c r = true) : isPracCat c' r = false := by
  simp only [isPracCat, Bool.and_eq_true, beq_iff_eq] at h
  rw [Bool.eq_false_iff]
  intro hc
  simp only [isPracCat, Bool.and_eq_true, beq_iff_eq] at hc
  rw [h.1] at hc
  exact hne hc.1.symm

theorem renumber_off_MUS (l : List Judge) :
    (((renumber l).filter (isOffCat sMUS)).map fun r => r.number)
      = intRange 1 (l.countP (isOffCat sMUS)) := by
  unfold renumber
  rw [assignFor_filter_disjoint _ _ (fun r h => off_prac_disjoint sMUS sSNG r h)
      (isOffCat_number sMUS),
    assignFor_filter_disjoint _ _ (fun r h => off_off_disjoint sMUS sSNG (by decide) r h)
      (isOffCat_number sMUS),
    assignFor_filter_disjoint _ _ (fun r h => off_prac_disjoint sMUS sPER r h)
      (isOffCat_number sMUS),
    assignFor_filter_disjoint _ _ (fun r h => off_off_disjoint sMUS sPER (by decide) r h)
      (isOffCat_number sMUS),
    assignFor_filter_disjoint _ _ (fun r h => off_prac_disjoint sMUS sMUS r h)
      (isOffCat_number sMUS),
    assignFor_filter_self _ (isOffCat_number sMUS)]

theorem renumber_off_PER (l : List Judge) :
    (((renumber l).filter (isOffCat sPER)).map fun r => r.number)
      = intRange (1 + (l.countP (isOffCat sMUS) : Int)) (l.countP (isOffCat sPER)) := by
  unfold renumber
  rw [assignFor_filter_disjoint _ _ (fun r h => off_prac_disjoint sPER sSNG r h)
      (isOffCat_number sPER),
    assignFor_filter_disjoint _ _ (fun r h => off_off_disjoint sPER sSNG (by decide) r h)
      (isOffCat_number sPER),
    assignFor_filter_disjoint _ _ (fun r h => off_prac_disjoint sPER sPER r h)
      (isOffCat_number sPER),
    assignFor_filter_self _ (isOffCat_number sPER),
    assignFor_countP _ _ (isOffCat_number sPER), assignFor_countP _ _ (isOffCat_number sPER)]

theorem renumber_off_SNG (l : List Judge) :
    (((renumber l).filter (isOffCat sSNG)).map fun r => r.number)
      = intRange (1 + (l.countP (isOffCat sMUS) : Int) + (l.countP (isOffCat sPER) : Int))
          (l.countP (isOffCat sSNG)) := by
  unfold renumber
  rw [assignFor_filter_disjoint _ _ (fun r h => off_prac_disjoint sSNG sSNG r h)
      (isOffCat_number sSNG),
    assignFor_filter_self _ (isOffCat_number sSNG),
    assignFor_countP _ _ (isOffCat_number sSNG), assignFor_countP _ _ (isOffCat_number sSNG),
    assignFor_countP _ _ (isOffCat_number sSNG), assignFor_countP _ _ (isOffCat_number sSNG)]

theorem renumber_prac_MUS (l : List Judge) :
    (((renumber l).filter (isPracCat sMUS)).map fun r => r.number)
      = intRange 50 (l.countP (isPracCat sMUS)) := by
  unfold renumber
  rw [assignFor_filter_disjoint _ _ (fun r h => prac_prac_disjoint sMUS sSNG (by decide) r h)
      (isPracCat_number sMUS),
    assignFor_filter_disjoint _ _ (fun r h => prac_off_disjoint sMUS sSNG r h)
      (isPracCat_number sMUS),
    assignFor_filter_disjoint _ _ (fun r h => prac_prac_disjoint sMUS sPER (by decide) r h)
      (isPracCat_number sMUS),
    assignFor_filter_disjoint _ _ (fun r h => prac_off_disjoint sMUS sPER r h)
      (isPracCat_number sMUS),
    assignFor_filter_self _ (isPracCat_number sMUS),
    assignFor_countP _ _ (isPracCat_number sMUS)]

theorem renumber_prac_PER (l : List Judge) :
    (((renumber l).filter (isPracCat sPER)).map fun r => r.number)
      = intRange 50 (l.countP (isPracCat sPER)) := by
  unfold renumber
  rw [assignFor_filter_disjoint _ _ (fun r h => prac_prac_disjoint sPER sSNG (by decide) r h)
      (isPracCat_number sPER),
    assignFor_filter_disjoint _ _ (fun r h => prac_off_disjoint sPER sSNG r h)
      (isPracCat_number sPER),
    assignFor_filter_self _ (isPracCat_number sPER),
    assignFor_countP _ _ (isPracCat_number sPER), assignFor_countP _ _ (isPracCat_number sPER),
    assignFor_countP _ _ (isPracCat_number sPER)]

theorem renumber_prac_SNG (l : List Judge) :
    (((renumber l).filter (isPracCat sSNG)).map fun r => r.number)
      = intRange 50 (l.countP (isPracCat sSNG)) := by
  unfold renumber
  rw [assignFor_filter_self _ (isPracCat_number sSNG),
    assignFor_countP _ _ (isPracCat_number sSNG), assignFor_countP _ _ (isPracCat_number sSNG),
    assignFor_countP _ _ (isPracCat_number sSNG), assignFor_countP _ _ (isPracCat_number sSNG),
    assignFor_countP _ _ (isPracCat_number sSNG)]

theorem renumber_shape (l : List Judge) :
    (renumber l).map judgeShape = l.map judgeShape := by
  unfold renumber
  rw [assignFor_shape, assignFor_shape, assignFor_shape, assignFor_shape,
    assignFor_shape, assignFor_shape]

/-- Claim C10: `calculate_numbers` neither adds nor removes rows: the output
has the same length as the input and its rows correspond one-to-one to the
input rows with Name and Print unchanged, the Category upper-cased-and-
stripped, and the Type title-cased-and-stripped; only the Number field is
rewritten. -/
theorem claim_C10_frame (df : List Judge) :
    (calculate_numbers df).length = df.length
    ∧ ((calculate_numbers df).map fun r => (r.name, r.print, r.category, r.jtype)).Perm
        (df.map fun r => (r.name, r.print, cleanCat r.category, cleanType r.jtype)) := by
  unfold calculate_numbers
  have hperm : (sortJudges (df.map cleanRow)).Perm (df.map cleanRow) :=
    List.perm_insertionSort rowLE (df.map cleanRow)
  have hs := renumber_shape (sortJudges (df.map cleanRow))
  constructor
  · have l1 : (renumber (sortJudges (df.map cleanRow))).length
        = ((renumber (sortJudges (df.map cleanRow))).map judgeShape).length :=
      (List.length_map _ _).symm
    rw [l1, hs, List.length_map]
    rw [hperm.length_eq, List.length_map]
  · have h2 : ((renumber (sortJudges (df.map cleanRow))).map fun r =>
        (r.name, r.print, r.category, r.jtype))
        = (renumber (sortJudges (df.map cleanRow))).map judgeShape := rfl
    rw [h2, hs]
    have h3 := hperm.map judgeShape
    have h4 : (df.map cleanRow).map judgeShape
        = df.map fun r => (r.name, r.print, cleanCat r.category, cleanType r.jtype) := by
      rw [List.map_map]
      rfl
    rw [h4] at h3
    exact h3

theorem calc_name_print_perm (df : List Judge) :
    ((calculate_numbers df).map fun r => (r.name, r.print)).Perm
      (df.map fun r => (r.name, r.print)) := by
  unfold calculate_numbers
  have hperm : (sortJudges (df.map cleanRow)).Perm (df.map cleanRow) :=
    List.perm_insertionSort rowLE (df.map cleanRow)
  have hs := renumber_shape (sortJudges (df.map cleanRow))
  have e1 : ((renumber (sortJudges (df.map cleanRow))).map fun r => (r.name, r.print))
      = ((renumber (sortJudges (df.map cleanRow))).map judgeShape).map
          (fun q => (q.1, q.2.1)) := by
    rw [List.map_map]
    rfl
  have e2 : ((sortJudges (df.map cleanRow)).map judgeShape).map (fun q => (q.1, q.2.1))
      = (sortJudges (df.map cleanRow)).map (fun r => (r.name, r.print)) := by
    rw [List.map_map]
    rfl
  rw [e1, hs, e2]
  have h3 := hperm.map (fun r : Judge => (r.name, r.print))
  have e3 : (df.map cleanRow).map (fun r : Judge => (r.name, r.print))
      = df.map (fun r => (r.name, r.print)) := by
    rw [List.map_map]
    rfl
  rw [e3] at h3
  exact h3

/-- Counterexample to claim C2: with a single MUS Official judge, balancing
appends "Absent PER Judge" and "Absent SNG Judge" placeholders (number 0,
print=false), but `calculate_numbers` then renumbers them along with the other
Official judges — afterwards the "Absent PER Judge" row has number 2, not 0. -/
theorem claim_C2_counterexample :
    ∃ r ∈ calculate_numbers (balance_and_sort_judges
        [⟨str "Alice Smith", str "MUS", str "Official", true, 1⟩]),
      r.name = str "Absent PER Judge" ∧ r.print = false ∧ r.number = 2 := by decide

/-- Claim C2 as amended: every placeholder appended by `balance_and_sort_judges`
is created with number 0 and print=false, and the renumbering pipeline
preserves each row's Name and Print (so placeholders still have print=false
after `calculate_numbers`); their Number, however, is reassigned by the
Official numbering and in general is no longer 0. -/
theorem claim_C2_amended (df : List Judge) :
    (((balance_and_sort_judges df).drop df.length).all fun r =>
        r.number == 0 && r.print == false) = true
    ∧ ((calculate_numbers df).map fun r => (r.name, r.print)).Perm
        (df.map fun r => (r.name, r.print)) := by
  constructor
  · simp only [balance_and_sort_judges]
    by_cases hmax :
        max (df.countP fun r => r.category == sMUS && r.jtype == sOfficial)
          (max (df.countP fun r => r.category == sPER && r.jtype == sOfficial)
            (df.countP fun r => r.category == sSNG && r.jtype == sOfficial)) > 0
    · rw [if_pos hmax, List.drop_left]
      rw [List.all_eq_true]
      intro r hr
      rw [List.mem_flatMap] at hr
      obtain ⟨cat, _, hr⟩ := hr
      rw [List.mem_replicate] at hr
      rw [hr.2]
      rfl
    · rw [if_neg hmax, List.drop_length]
      rfl
  · exact calc_name_print_perm df

theorem renumber_countP (q : Judge → Bool)
    (hq : ∀ (r : Judge) (n : Int), q { r with number := n } = q r) (l : List Judge) :
    (renumber l).countP q = l.countP q := by
  unfold renumber
  rw [assignFor_countP _ _ hq, assignFor_countP _ _ hq, assignFor_countP _ _ hq,
    assignFor_countP _ _ hq, assignFor_countP _ _ hq, assignFor_countP _ _ hq]

theorem isOfficialB_number (r : Judge) (n : Int) :
    isOfficialB { r with number := n } = isOfficialB r := rfl

theorem official_count_split (l : List Judge)
    (hl : ∀ r ∈ l, r.category = sMUS ∨ r.category = sPER ∨ r.category = sSNG) :
    l.countP isOfficialB
      = l.countP (isOffCat sMUS) + (l.countP (isOffCat sPER) + l.countP (isOffCat sSNG)) := by
  induction l with
  | nil => rfl
  | cons r rs ih =>
    have hr := hl r (List.mem_cons_self r rs)
    have ihh := ih fun x hx => hl x (List.mem_cons_of_mem r hx)
    simp only [List.countP_cons]
    by_cases hoff : isOfficialB r = true
    · have hjt : (r.jtype == sOfficial) = true := hoff
      rcases hr with hc | hc | hc
      · simp only [isOffCat, isOfficialB, hc, hjt, beq_self_eq_true, Bool.and_self,
          Bool.true_and, Bool.and_true, show (sMUS == sPER) = false from by decide,
          show (sMUS == sSNG) = false from by decide, Bool.false_and, ihh,
          show (if false = true then (1 : Nat) else 0) = 0 from rfl,
          show (if true = true then (1 : Nat) else 0) = 1 from rfl]
        omega
      · simp only [isOffCat, isOfficialB, hc, hjt, beq_self_eq_true, Bool.and_self,
          Bool.true_and, Bool.and_true, show (sPER == sMUS) = false from by decide,
          show (sPER == sSNG) = false from by decide, Bool.false_and, ihh,
          show (if false = true then (1 : Nat) else 0) = 0 from rfl,
          show (if true = true then (1 : Nat) else 0) = 1 from rfl]
        omega
      · simp only [isOffCat, isOfficialB, hc, hjt, beq_self_eq_true, Bool.and_self,
          Bool.true_and, Bool.and_true, show (sSNG == sMUS) = false from by decide,
          show (sSNG == sPER) = false from by decide, Bool.false_and, ihh,
          show (if false = true then (1 : Nat) else 0) = 0 from rfl,
          show (if true = true then (1 : Nat) else 0) = 1 from rfl]
        omega
    · have hjf : (r.jtype == sOfficial) = false := by
        rw [Bool.not_eq_true] at hoff
        exact hoff
      have b0 : isOfficialB r = false := hjf
      have b1 : ∀ c, isOffCat c r = false := by
        intro c
        rw [Bool.eq_false_iff]
        intro hcc
        simp only [isOffCat, Bool.and_eq_true] at hcc
        rw [hcc.2] at hjf
        exact absurd hjf (by simp)
      simp only [b0, b1, ihh,
        show (if false = true then (1 : Nat) else 0) = 0 from rfl]
      omega

/-- Claim C1: after `calculate_numbers`, under the in-app invariant that every
row's cleaned category is MUS, PER or SNG, the Official judges taken in MUS
then PER then SNG order carry exactly the contiguous integers `1..K`
(`K` = total Official count), with the numbering continuing across categories;
the Practice judges of each category carry `50, 51, ...` restarting at 50 in
every category (so Practice numbers can repeat across categories). -/
theorem claim_C1_numbering (df : List Judge)
    (hcat : ∀ r ∈ df, cleanCat r.category = sMUS ∨ cleanCat r.category = sPER
      ∨ cleanCat r.category = sSNG) :
    (((calculate_numbers df).filter (isOffCat sMUS)
        ++ (calculate_numbers df).filter (isOffCat sPER)
        ++ (calculate_numbers df).filter (isOffCat sSNG)).map fun r => r.number)
      = intRange 1 ((calculate_numbers df).countP isOfficialB)
    ∧ (((calculate_numbers df).filter (isPracCat sMUS)).map fun r => r.number)
        = intRange 50 (((calculate_numbers df).filter (isPracCat sMUS)).length)
    ∧ (((calculate_numbers df).filter (isPracCat sPER)).map fun r => r.number)
        = intRange 50 (((calculate_numbers df).filter (isPracCat sPER)).length)
    ∧ (((calculate_numbers df).filter (isPracCat sSNG)).map fun r => r.number)
        = intRange 50 (((calculate_numbers df).filter (isPracCat sSNG)).length) := by
  unfold calculate_numbers
  have hls : ∀ r ∈ sortJudges (df.map cleanRow),
      r.category = sMUS ∨ r.category = sPER ∨ r.category = sSNG := by
    intro r hr
    have hr2 : r ∈ df.map cleanRow :=
      (List.perm_insertionSort rowLE (df.map cleanRow)).mem_iff.mp hr
    rw [List.mem_map] at hr2
    obtain ⟨r0, hr0, rfl⟩ := hr2
    exact hcat r0 hr0
  have hcount : (renumber (sortJudges (df.map cleanRow))).countP isOfficialB
      = (sortJudges (df.map cleanRow)).countP (isOffCat sMUS)
        + ((sortJudges (df.map cleanRow)).countP (isOffCat sPER)
          + (sortJudges (df.map cleanRow)).countP (isOffCat sSNG)) := by
    rw [renumber_countP _ isOfficialB_number]
    exact official_count_split _ hls
  refine ⟨?_, ?_, ?_, ?_⟩
  · rw [List.map_append, List.map_append, renumber_off_MUS, renumber_off_PER,
      renumber_off_SNG, intRange_append, hcount]
    have hb : (1 : Int) + ((sortJudges (df.map cleanRow)).countP (isOffCat sMUS) : Int)
        + ((sortJudges (df.map cleanRow)).countP (isOffCat sPER) : Int)
        = 1 + (((sortJudges (df.map cleanRow)).countP (isOffCat sMUS)
            + (sortJudges (df.map cleanRow)).countP (isOffCat sPER) : Nat) : Int) := by
      push_cast
      ring
    rw [hb, intRange_append, Nat.add_assoc]
  · have hlen : ((renumber (sortJudges (df.map cleanRow))).filter (isPracCat sMUS)).length
        = (sortJudges (df.map cleanRow)).countP (isPracCat sMUS) := by
      rw [← List.countP_eq_length_filter]
      exact renumber_countP _ (isPracCat_number sMUS) _
    rw [renumber_prac_MUS, hlen]
  · have hlen : ((renumber (sortJudges (df.map cleanRow))).filter (isPracCat sPER)).length
        = (sortJudges (df.map cleanRow)).countP (isPracCat sPER) := by
      rw [← List.countP_eq_length_filter]
      exact renumber_countP _ (isPracCat_number sPER) _
    rw [renumber_prac_PER, hlen]
  · have hlen : ((renumber (sortJudges (df.map cleanRow))).filter (isPracCat sSNG)).length
        = (sortJudges (df.map cleanRow)).countP (isPracCat sSNG) := by
      rw [← List.countP_eq_length_filter]
      exact renumber_countP _ (isPracCat_number sSNG) _
    rw [renumber_prac_SNG, hlen]

/-- A concrete two-judge table satisfying the category hypothesis. -/
def df1 : List Judge :=
  [⟨str "Ann Bee", str "MUS", str "Official", true, 0⟩,
   ⟨str "Cal Dow", str "PER", str "Practice", true, 0⟩]

/-- Witness instantiating the numbering theorem on a concrete table. -/
theorem claim_C1_numbering_witness :
    (((calculate_numbers df1).filter (isOffCat sMUS)
        ++ (calculate_numbers df1).filter (isOffCat sPER)
        ++ (calculate_numbers df1).filter (isOffCat sSNG)).map fun r => r.number)
      = intRange 1 ((calculate_numbers df1).countP isOfficialB)
    ∧ (((calculate_numbers df1).filter (isPracCat sMUS)).map fun r => r.number)
        = intRange 50 (((calculate_numbers df1).filter (isPracCat sMUS)).length)
    ∧ (((calculate_numbers df1).filter (isPracCat sPER)).map fun r => r.number)
        = intRange 50 (((calculate_numbers df1).filter (isPracCat sPER)).length)
    ∧ (((calculate_numbers df1).filter (isPracCat sSNG)).map fun r => r.number)
        = intRange 50 (((calculate_numbers df1).filter (isPracCat sSNG)).length) :=
  claim_C1_numbering df1 (by decide)

theorem toNat_ofNat_valid {n : Nat} (h : n < 55296) : (Char.ofNat n).toNat = n := by
  have hv : n.isValidChar := Or.inl h
  unfold Char.ofNat
  rw [dif_pos hv]
  simp [Char.ofNatAux, Char.toNat, UInt32.toNat]

theorem isAlphaB_iff (c : Char) :
    isAlphaB c = true ↔ (97 ≤ c.toNat ∧ c.toNat ≤ 122) ∨ (65 ≤ c.toNat ∧ c.toNat ≤ 90) := by
  simp [isAlphaB, isLowerB, isUpperB]

theorem upChar_eq_of_lower {c : Char} (h : isLowerB c = true) :
    (upChar c).toNat = c.toNat - 32 ∧ 97 ≤ c.toNat ∧ c.toNat ≤ 122 := by
  have hb : 97 ≤ c.toNat ∧ c.toNat ≤ 122 := by simpa [isLowerB] using h
  refine ⟨?_, hb⟩
  unfold upChar
  rw [if_pos h]
  exact toNat_ofNat_valid (by omega)

theorem upChar_eq_of_not_lower {c : Char} (h : isLowerB c = false) : upChar c = c := by
  unfold upChar
  rw [if_neg]
  simp [h]

theorem downChar_eq_of_upper {c : Char} (h : isUpperB c = true) :
    (downChar c).toNat = c.toNat + 32 ∧ 65 ≤ c.toNat ∧ c.toNat ≤ 90 := by
  have hb : 65 ≤ c.toNat ∧ c.toNat ≤ 90 := by simpa [isUpperB] using h
  refine ⟨?_, hb⟩
  unfold downChar
  rw [if_pos h]
  exact toNat_ofNat_valid (by omega)

theorem downChar_eq_of_not_upper {c : Char} (h : isUpperB c = false) : downChar c = c := by
  unfold downChar
  rw [if_neg]
  simp [h]

theorem upChar_idem (c : Char) : upChar (upChar c) = upChar c := by
  by_cases h : isLowerB c = true
  · obtain ⟨ht, h97, h122⟩ := upChar_eq_of_lower h
    apply upChar_eq_of_not_lower
    rw [Bool.eq_false_iff]
    intro hc
    simp only [isLowerB, Bool.and_eq_true, decide_eq_true_eq] at hc
    rw [ht] at hc
    omega
  · rw [Bool.not_eq_true] at h
    rw [upChar_eq_of_not_lower h, upChar_eq_of_not_lower h]

theorem downChar_idem (c : Char) : downChar (downChar c) = downChar c := by
  by_cases h : isUpperB c = true
  · obtain ⟨ht, h65, h90⟩ := downChar_eq_of_upper h
    apply downChar_eq_of_not_upper
    rw [Bool.eq_false_iff]
    intro hc
    simp only [isUpperB, Bool.and_eq_true, decide_eq_true_eq] at hc
    rw [ht] at hc
    omega
  · rw [Bool.not_eq_true] at h
    rw [downChar_eq_of_not_upper h, downChar_eq_of_not_upper h]

theorem isAlphaB_upChar (c : Char) : isAlphaB (upChar c) = isAlphaB c := by
  by_cases h : isLowerB c = true
  · obtain ⟨ht, h97, h122⟩ := upChar_eq_of_lower h
    have h1 : isAlphaB c = true := (isAlphaB_iff c).mpr (Or.inl ⟨h97, h122⟩)
    have h2 : isAlphaB (upChar c) = true :=
      (isAlphaB_iff _).mpr (Or.inr ⟨by omega, by omega⟩)
    rw [h1, h2]
  · rw [Bool.not_eq_true] at h
    rw [upChar_eq_of_not_lower h]

theorem isAlphaB_downChar (c : Char) : isAlphaB (downChar c) = isAlphaB c := by
  by_cases h : isUpperB c = true
  · obtain ⟨ht, h65, h90⟩ := downChar_eq_of_upper h
    have h1 : isAlphaB c = true := (isAlphaB_iff c).mpr (Or.inr ⟨h65, h90⟩)
    have h2 : isAlphaB (downChar c) = true :=
      (isAlphaB_iff _).mpr (Or.inl ⟨by omega, by omega⟩)
    rw [h1, h2]
  · rw [Bool.not_eq_true] at h
    rw [downChar_eq_of_not_upper h]

theorem wsB_of_toNat {c : Char} (h : 48 ≤ c.toNat) : wsB c = false := by
  rw [Bool.eq_false_iff]
  intro hc
  simp only [wsB, Bool.or_eq_true, decide_eq_true_eq] at hc
  omega

theorem wsB_upChar (c : Char) : wsB (upChar c) = wsB c := by
  by_cases h : isLowerB c = true
  · obtain ⟨ht, h97, h122⟩ := upChar_eq_of_lower h
    rw [wsB_of_toNat (by omega), wsB_of_toNat (by omega)]
  · rw [Bool.not_eq_true] at h
    rw [upChar_eq_of_not_lower h]

theorem wsB_downChar (c : Char) : wsB (downChar c) = wsB c := by
  by_cases h : isUpperB c = true
  · obtain ⟨ht, h65, h90⟩ := downChar_eq_of_upper h
    rw [wsB_of_toNat (by omega), wsB_of_toNat (by omega)]
  · rw [Bool.not_eq_true] at h
    rw [downChar_eq_of_not_upper h]

theorem wsB_not_alpha {c : Char} (h : wsB c = true) : isAlphaB c = false := by
  simp only [wsB, Bool.or_eq_true, decide_eq_true_eq] at h
  rw [Bool.eq_false_iff]
  intro hc
  rw [isAlphaB_iff] at hc
  omega

theorem dropWhile_idem (p : Char → Bool) :
    ∀ l : Str, (l.dropWhile p).dropWhile p = l.dropWhile p := by
  intro l
  induction l with
  | nil => rfl
  | cons c rest ih =>
    by_cases hc : p c = true
    · simp [List.dropWhile_cons, hc, ih]
    · simp [List.dropWhile_cons, hc]

theorem dropWhile_cons_self {p : Char → Bool} {c : Char} {t : Str}
    (h : (c :: t).dropWhile p = c :: t) : p c = false := by
  by_cases hc : p c = true
  · rw [List.dropWhile_cons, if_pos hc] at h
    have hlen := congrArg List.length h
    have hle : (t.dropWhile p).length ≤ t.length := (List.dropWhile_sublist p).length_le
    simp at hlen
    omega
  · rw [Bool.not_eq_true] at hc
    exact hc

theorem dropWhile_eq_self_of_prefix (p : Char → Bool) {x y : Str}
    (hx : x.dropWhile p = x) (hxy : y <+: x) : y.dropWhile p = y := by
  cases y with
  | nil => rfl
  | cons c t =>
    obtain ⟨rest, hrest⟩ := hxy
    rw [← hrest] at hx
    have hpc : p c = false := by
      rw [List.cons_append] at hx
      by_cases hc : p c = true
      · rw [List.dropWhile_cons, if_pos hc] at hx
        have hlen := congrArg List.length hx
        have hle : ((t ++ rest).dropWhile p).length ≤ (t ++ rest).length :=
          (List.dropWhile_sublist p).length_le
        simp at hlen hle
        omega
      · rw [Bool.not_eq_true] at hc
        exact hc
    rw [List.dropWhile_cons, if_neg (by simp [hpc])]

theorem stripF_idem (l : Str) : stripF (stripF l) = stripF l := dropWhile_idem wsB l

theorem stripB_idem (l : Str) : stripB (stripB l) = stripB l := by
  unfold stripB
  rw [List.reverse_reverse, stripF_idem]

theorem stripB_prefix_self (l : Str) : stripB l <+: l := by
  have hrev : (stripB l).reverse <:+ l.reverse := by
    unfold stripB stripF
    rw [List.reverse_reverse]
    exact List.dropWhile_suffix wsB
  exact List.reverse_suffix.mp hrev

theorem stripF_stripB_of_stripped {l : Str} (h : stripF l = l) : stripF (stripB l) = stripB l :=
  dropWhile_eq_self_of_prefix wsB h (stripB_prefix_self l)

theorem pyStrip_idem (l : Str) : pyStrip (pyStrip l) = pyStrip l := by
  unfold pyStrip
  rw [stripF_stripB_of_stripped (stripF_idem l), stripB_idem]

theorem dropWhile_map_invariant (p : Char → Bool) (f : Char → Char)
    (hf : ∀ c, p (f c) = p c) (l : Str) :
    (l.map f).dropWhile p = (l.dropWhile p).map f := by
  rw [List.dropWhile_map]
  have : (p ∘ f) = p := funext hf
  rw [this]

theorem stripF_map_invariant (f : Char → Char) (hf : ∀ c, wsB (f c) = wsB c) (l : Str) :
    stripF (l.map f) = (stripF l).map f := dropWhile_map_invariant wsB f hf l

theorem stripB_map_invariant (f : Char → Char) (hf : ∀ c, wsB (f c) = wsB c) (l : Str) :
    stripB (l.map f) = (stripB l).map f := by
  unfold stripB
  rw [← List.map_reverse, stripF_map_invariant f hf, List.map_reverse]

theorem pyStrip_map_invariant (f : Char → Char) (hf : ∀ c, wsB (f c) = wsB c) (l : Str) :
    pyStrip (l.map f) = (pyStrip l).map f := by
  unfold pyStrip
  rw [stripF_map_invariant f hf, stripB_map_invariant f hf]

theorem pyUpper_idem (l : Str) : pyUpper (pyUpper l) = pyUpper l := by
  unfold pyUpper
  rw [List.map_map]
  apply List.map_congr_left
  intro c _
  exact upChar_idem c

theorem cleanCat_idem (s : Str) : cleanCat (cleanCat s) = cleanCat s := by
  unfold cleanCat pyUpper
  have h0 : (pyStrip (s.map upChar)).map upChar = pyStrip ((s.map upChar).map upChar) :=
    (pyStrip_map_invariant upChar wsB_upChar (s.map upChar)).symm
  rw [h0]
  have h1 : (s.map upChar).map upChar = s.map upChar := pyUpper_idem s
  rw [h1, pyStrip_idem]

theorem titleAux_idem : ∀ (cs : Str) (b : Bool), titleAux b (titleAux b cs) = titleAux b cs := by
  intro cs
  induction cs with
  | nil => intro b; rfl
  | cons c rest ih =>
    intro b
    by_cases ha : isAlphaB c = true
    · cases b
      · simp only [titleAux, ha, if_true, if_false, Bool.false_eq_true]
        rw [isAlphaB_upChar c, if_pos ha, upChar_idem, ih true]
      · simp only [titleAux, ha, if_true]
        rw [isAlphaB_downChar c, if_pos ha, downChar_idem, ih true]
    · rw [Bool.not_eq_true] at ha
      simp only [titleAux, ha, Bool.false_eq_true, if_false]
      rw [ih false]

theorem takeWhile_mem_ws (p : Char → Bool) :
    ∀ (l : Str) (c : Char), c ∈ l.takeWhile p → p c = true := by
  intro l
  induction l with
  | nil => intro c hc; simp at hc
  | cons d rest ih =>
    intro c hc
    by_cases hd : p d = true
    · rw [List.takeWhile_cons, if_pos hd] at hc
      rcases List.mem_cons.mp hc with rfl | hc
      · exact hd
      · exact ih c hc
    · rw [List.takeWhile_cons, if_neg hd] at hc
      simp at hc

theorem titleAux_ws_prepend (w r : Str) (hw : ∀ c ∈ w, wsB c = true) :
    titleAux false (w ++ r) = w ++ titleAux false r := by
  induction w with
  | nil => rfl
  | cons c w' ih =>
    have hc := hw c (List.mem_cons_self c w')
    have ha : isAlphaB c = false := wsB_not_alpha hc
    rw [List.cons_append]
    simp only [titleAux, ha, Bool.false_eq_true, if_false]
    rw [ih fun x hx => hw x (List.mem_cons_of_mem c hx), List.cons_append]

theorem titleAux_ws_id (t : Str) (ht : ∀ c ∈ t, wsB c = true) :
    ∀ f : Bool, titleAux f t = t := by
  induction t with
  | nil => intro f; rfl
  | cons c t' ih =>
    intro f
    have hc := ht c (List.mem_cons_self c t')
    have ha : isAlphaB c = false := wsB_not_alpha hc
    simp only [titleAux, ha, Bool.false_eq_true, if_false]
    rw [ih (fun x hx => ht x (List.mem_cons_of_mem c hx)) false]

theorem titleAux_append : ∀ (xs : Str) (b : Bool) (ys : Str),
    titleAux b (xs ++ ys)
      = titleAux b xs ++ titleAux (xs.foldl (fun _ c => isAlphaB c) b) ys := by
  intro xs
  induction xs with
  | nil => intro b ys; rfl
  | cons c xs' ih =>
    intro b ys
    by_cases ha : isAlphaB c = true
    · rw [List.cons_append]
      simp only [titleAux, ha, if_true, List.foldl_cons]
      rw [ih true ys, List.cons_append]
    · rw [Bool.not_eq_true] at ha
      rw [List.cons_append]
      simp only [titleAux, ha, Bool.false_eq_true, if_false, List.foldl_cons]
      rw [ih false ys, List.cons_append]

theorem titleFixed_stripF {l : Str} (h : titleAux false l = l) :
    titleAux false (stripF l) = stripF l := by
  have hsplit : l.takeWhile wsB ++ l.dropWhile wsB = l := List.takeWhile_append_dropWhile wsB l
  have hw : ∀ c ∈ l.takeWhile wsB, wsB c = true := fun c hc => takeWhile_mem_ws wsB l c hc
  have h2 : titleAux false (l.takeWhile wsB ++ l.dropWhile wsB)
      = l.takeWhile wsB ++ titleAux false (l.dropWhile wsB) :=
    titleAux_ws_prepend _ _ hw
  rw [hsplit] at h2
  rw [h] at h2
  have h3 : l.takeWhile wsB ++ l.dropWhile wsB
      = l.takeWhile wsB ++ titleAux false (l.dropWhile wsB) := by
    rw [hsplit]
    exact h2
  exact (List.append_cancel_left h3).symm

theorem titleFixed_stripB {y : Str} (h : titleAux false y = y) :
    titleAux false (stripB y) = stripB y := by
  have hsplit : y.reverse.takeWhile wsB ++ y.reverse.dropWhile wsB = y.reverse :=
    List.takeWhile_append_dropWhile wsB y.reverse
  have hy : y = stripB y ++ (y.reverse.takeWhile wsB).reverse := by
    conv_lhs => rw [← List.reverse_reverse y, ← hsplit]
    rw [List.reverse_append]
    rfl
  have ht : ∀ c ∈ (y.reverse.takeWhile wsB).reverse, wsB c = true := by
    intro c hc
    rw [List.mem_reverse] at hc
    exact takeWhile_mem_ws wsB y.reverse c hc
  have happ := titleAux_append (stripB y)
    false ((y.reverse.takeWhile wsB).reverse)
  rw [titleAux_ws_id _ ht] at happ
  have h2 : titleAux false y = titleAux false (stripB y)
      ++ (y.reverse.takeWhile wsB).reverse := by
    conv_lhs => rw [hy]
    exact happ
  rw [h] at h2
  conv_lhs at h2 => rw [hy]
  exact (List.append_cancel_right h2.symm)

theorem pyTitle_idem (s : Str) : pyTitle (pyTitle s) = pyTitle s := titleAux_idem s false

theorem cleanType_idem (s : Str) : cleanType (cleanType s) = cleanType s := by
  unfold cleanType pyTitle
  have hz : titleAux false (titleAux false s) = titleAux false s := titleAux_idem s false
  have h1 : titleAux false (stripF (titleAux false s)) = stripF (titleAux false s) :=
    titleFixed_stripF hz
  have h2 : titleAux false (pyStrip (titleAux false s)) = pyStrip (titleAux false s) :=
    titleFixed_stripB h1
  rw [h2, pyStrip_idem]

theorem strLE_total : ∀ a b : Str, strLE a b = true ∨ strLE b a = true := by
  intro a
  induction a with
  | nil => intro b; left; rfl
  | cons x as ih =>
    intro b
    cases b with
    | nil => right; rfl
    | cons y bs =>
      by_cases h1 : x.toNat < y.toNat
      · left; simp [strLE, h1]
      · by_cases h2 : y.toNat < x.toNat
        · right; simp [strLE, h2]
        · rcases ih bs with h | h
          · left; simp [strLE, h1, h2, h]
          · right; simp [strLE, h1, h2, h]

theorem strLE_trans : ∀ a b c : Str, strLE a b = true → strLE b c = true → strLE a c = true := by
  intro a
  induction a with
  | nil => intro b c _ _; rfl
  | cons x as ih =>
    intro b c hab hbc
    cases b with
    | nil => simp [strLE] at hab
    | cons y bs =>
      cases c with
      | nil => simp [strLE] at hbc
      | cons z cs =>
        by_cases hxy : x.toNat < y.toNat
        · by_cases hyz : y.toNat < z.toNat
          · simp [strLE, show x.toNat < z.toNat by omega]
          · by_cases hzy : z.toNat < y.toNat
            · simp [strLE, hyz, hzy] at hbc
            · simp [strLE, show x.toNat < z.toNat by omega]
        · by_cases hyx : y.toNat < x.toNat
          · simp [strLE, hxy, hyx] at hab
          · have hab' : strLE as bs = true := by simpa [strLE, hxy, hyx] using hab
            by_cases hyz : y.toNat < z.toNat
            · simp [strLE, show x.toNat < z.toNat by omega]
            · by_cases hzy : z.toNat < y.toNat
              · simp [strLE, hyz, hzy] at hbc
              · have hbc' : strLE bs cs = true := by simpa [strLE, hyz, hzy] using hbc
                have hxz : ¬ x.toNat < z.toNat := by omega
                have hzx : ¬ z.toNat < x.toNat := by omega
                simp only [strLE, hxz, hzx, if_false]
                exact ih bs cs hab' hbc'

theorem keyLE_iff (a b : Nat × Nat × Str) : keyLE a b = true ↔
    a.1 < b.1 ∨ (¬ a.1 < b.1 ∧ ¬ b.1 < a.1 ∧ (a.2.1 < b.2.1
      ∨ (¬ a.2.1 < b.2.1 ∧ ¬ b.2.1 < a.2.1 ∧ strLE a.2.2 b.2.2 = true))) := by
  unfold keyLE
  by_cases h1 : a.1 < b.1
  · simp [h1]
  · by_cases h2 : b.1 < a.1
    · simp [h1, h2]
    · by_cases h3 : a.2.1 < b.2.1
      · simp [h1, h2, h3]
      · by_cases h4 : b.2.1 < a.2.1
        · simp [h1, h2, h3, h4]
        · simp [h1, h2, h3, h4]

theorem keyLE_total (a b : Nat × Nat × Str) : keyLE a b = true ∨ keyLE b a = true := by
  rw [keyLE_iff, keyLE_iff]
  by_cases h1 : a.1 < b.1
  · left; exact Or.inl h1
  · by_cases h2 : b.1 < a.1
    · right; exact Or.inl h2
    · by_cases h3 : a.2.1 < b.2.1
      · left; exact Or.inr ⟨h1, h2, Or.inl h3⟩
      · by_cases h4 : b.2.1 < a.2.1
        · right; exact Or.inr ⟨h2, h1, Or.inl h4⟩
        · rcases strLE_total a.2.2 b.2.2 with h | h
          · left; exact Or.inr ⟨h1, h2, Or.inr ⟨h3, h4, h⟩⟩
          · right; exact Or.inr ⟨h2, h1, Or.inr ⟨h4, h3, h⟩⟩

theorem keyLE_trans (a b c : Nat × Nat × Str) (hab : keyLE a b = true)
    (hbc : keyLE b c = true) : keyLE a c = true := by
  rw [keyLE_iff] at hab hbc ⊢
  rcases hab with h | ⟨hn1, hn2, hab2⟩
  · rcases hbc with h' | ⟨hn1', hn2', _⟩
    · exact Or.inl (by omega)
    · exact Or.inl (by omega)
  · rcases hbc with h' | ⟨hn1', hn2', hbc2⟩
    · exact Or.inl (by omega)
    · refine Or.inr ⟨by omega, by omega, ?_⟩
      rcases hab2 with h | ⟨hm1, hm2, hab3⟩
      · rcases hbc2 with h' | ⟨hm1', hm2', _⟩
        · exact Or.inl (by omega)
        · exact Or.inl (by omega)
      · rcases hbc2 with h' | ⟨hm1', hm2', hbc3⟩
        · exact Or.inl (by omega)
        · exact Or.inr ⟨by omega, by omega, strLE_trans _ _ _ hab3 hbc3⟩

instance : IsTotal Judge rowLE :=
  ⟨fun a b => by
    unfold rowLE
    rcases keyLE_total (key a) (key b) with h | h
    · exact Or.inl h
    · exact Or.inr h⟩

instance : IsTrans Judge rowLE :=
  ⟨fun a b c hab hbc => keyLE_trans (key a) (key b) (key c) hab hbc⟩

/-- The sort key as a function of the number-free row shape. -/
def keyShape (q : Str × Bool × Str × Str) : Nat × Nat × Str :=
  (catRank q.2.2.1, typeRank q.2.2.2, lastTok q.1)

theorem sorted_of_shape_eq {l₁ l₂ : List Judge}
    (h : l₁.map judgeShape = l₂.map judgeShape) (hs : List.Sorted rowLE l₂) :
    List.Sorted rowLE l₁ := by
  have e : ∀ l : List Judge, List.Sorted rowLE l ↔
      List.Pairwise (fun a b => keyLE (keyShape a) (keyShape b) = true)
        (l.map judgeShape) := by
    intro l
    rw [List.pairwise_map]
    exact Iff.rfl
  exact (e l₁).mpr (h ▸ (e l₂).mp hs)

theorem assignFor_assignFor (p : Judge → Bool)
    (hp : ∀ (r : Judge) (n : Int), p { r with number := n } = p r) :
    ∀ (n m : Int) (l : List Judge), assignFor p n (assignFor p m l) = assignFor p n l := by
  intro n m l
  induction l generalizing n m with
  | nil => rfl
  | cons r rs ih =>
    by_cases hpr : p r = true
    · have hpos : p { r with number := m } = true := by rw [hp]; exact hpr
      simp only [assignFor, hpr, if_true, hpos]
      rw [ih]
    · have hneg : p r = false := by rw [Bool.not_eq_true] at hpr; exact hpr
      simp only [assignFor, hneg, Bool.false_eq_true, if_false]
      rw [ih]

theorem assignFor_comm (p q : Judge → Bool)
    (hpq : ∀ r : Judge, p r = true → q r = false)
    (hp : ∀ (r : Judge) (n : Int), p { r with number := n } = p r)
    (hq : ∀ (r : Judge) (n : Int), q { r with number := n } = q r) :
    ∀ (n m : Int) (l : List Judge),
      assignFor p n (assignFor q m l) = assignFor q m (assignFor p n l) := by
  intro n m l
  induction l generalizing n m with
  | nil => rfl
  | cons r rs ih =>
    by_cases hpr : p r = true
    · have hqr : q r = false := hpq r hpr
      have hq2 : q { r with number := n } = false := by rw [hq]; exact hqr
      have hp2 : p { r with number := m } = true := by rw [hp]; exact hpr
      simp only [assignFor, hpr, hqr, if_true, Bool.false_eq_true, if_false, hq2, hp2]
      rw [ih]
    · have hpr' : p r = false := by rw [Bool.not_eq_true] at hpr; exact hpr
      by_cases hqr : q r = true
      · have hp2 : p { r with number := m } = false := by rw [hp]; exact hpr'
        simp only [assignFor, hpr', hqr, if_true, Bool.false_eq_true, if_false, hp2]
        rw [ih]
      · have hqr' : q r = false := by rw [Bool.not_eq_true] at hqr; exact hqr
        simp only [assignFor, hpr', hqr', Bool.false_eq_true, if_false]
        rw [ih]

theorem renumber_renumber (l : List Judge) : renumber (renumber l) = renumber l := by
  have e : ∀ x : List Judge, renumber x
      = assignFor (isPracCat sSNG) 50
          (assignFor (isOffCat sSNG)
            (1 + (x.countP (isOffCat sMUS) : Int) + (x.countP (isOffCat sPER) : Int))
            (assignFor (isPracCat sPER) 50
              (assignFor (isOffCat sPER) (1 + (x.countP (isOffCat sMUS) : Int))
                (assignFor (isPracCat sMUS) 50
                  (assignFor (isOffCat sMUS) 1 x))))) := fun _ => rfl
  have hm := renumber_countP (isOffCat sMUS) (isOffCat_number sMUS) l
  have hp := renumber_countP (isOffCat sPER) (isOffCat_number sPER) l
  rw [e (renumber l), hm, hp, e l]
  rw [assignFor_comm (isOffCat sMUS) (isPracCat sSNG)
    (fun r h => off_prac_disjoint sMUS sSNG r h) (isOffCat_number sMUS) (isPracCat_number sSNG)]
  rw [assignFor_comm (isOffCat sMUS) (isOffCat sSNG)
    (fun r h => off_off_disjoint sMUS sSNG (by decide) r h)
    (isOffCat_number sMUS) (isOffCat_number sSNG)]
  rw [assignFor_comm (isOffCat sMUS) (isPracCat sPER)
    (fun r h => off_prac_disjoint sMUS sPER r h) (isOffCat_number sMUS) (isPracCat_number sPER)]
  rw [assignFor_comm (isOffCat sMUS) (isOffCat sPER)
    (fun r h => off_off_disjoint sMUS sPER (by decide) r h)
    (isOffCat_number sMUS) (isOffCat_number sPER)]
  rw [assignFor_comm (isOffCat sMUS) (isPracCat sMUS)
    (fun r h => off_prac_disjoint sMUS sMUS r h) (isOffCat_number sMUS) (isPracCat_number sMUS)]
  rw [assignFor_assignFor (isOffCat sMUS) (isOffCat_number sMUS)]
  rw [assignFor_comm (isPracCat sMUS) (isPracCat sSNG)
    (fun r h => prac_prac_disjoint sMUS sSNG (by decide) r h)
    (isPracCat_number sMUS) (isPracCat_number sSNG)]
  rw [assignFor_comm (isPracCat sMUS) (isOffCat sSNG)
    (fun r h => prac_off_disjoint sMUS sSNG r h) (isPracCat_number sMUS) (isOffCat_number sSNG)]
  rw [assignFor_comm (isPracCat sMUS) (isPracCat sPER)
    (fun r h => prac_prac_disjoint sMUS sPER (by decide) r h)
    (isPracCat_number sMUS) (isPracCat_number sPER)]
  rw [assignFor_comm (isPracCat sMUS) (isOffCat sPER)
    (fun r h => prac_off_disjoint sMUS sPER r h) (isPracCat_number sMUS) (isOffCat_number sPER)]
  rw [assignFor_assignFor (isPracCat sMUS) (isPracCat_number sMUS)]
  rw [assignFor_comm (isOffCat sPER) (isPracCat sSNG)
    (fun r h => off_prac_disjoint sPER sSNG r h) (isOffCat_number sPER) (isPracCat_number sSNG)]
  rw [assignFor_comm (isOffCat sPER) (isOffCat sSNG)
    (fun r h => off_off_disjoint sPER sSNG (by decide) r h)
    (isOffCat_number sPER) (isOffCat_number sSNG)]
  rw [assignFor_comm (isOffCat sPER) (isPracCat sPER)
    (fun r h => off_prac_disjoint sPER sPER r h) (isOffCat_number sPER) (isPracCat_number sPER)]
  rw [assignFor_assignFor (isOffCat sPER) (isOffCat_number sPER)]
  rw [assignFor_comm (isPracCat sPER) (isPracCat sSNG)
    (fun r h => prac_prac_disjoint sPER sSNG (by decide) r h)
    (isPracCat_number sPER) (isPracCat_number sSNG)]
  rw [assignFor_comm (isPracCat sPER) (isOffCat sSNG)
    (fun r h => prac_off_disjoint sPER sSNG r h) (isPracCat_number sPER) (isOffCat_number sSNG)]
  rw [assignFor_assignFor (isPracCat sPER) (isPracCat_number sPER)]
  rw [assignFor_comm (isOffCat sSNG) (isPracCat sSNG)
    (fun r h => off_prac_disjoint sSNG sSNG r h) (isOffCat_number sSNG) (isPracCat_number sSNG)]
  rw [assignFor_assignFor (isOffCat sSNG) (isOffCat_number sSNG)]
  rw [assignFor_assignFor (isPracCat sSNG) (isPracCat_number sSNG)]

theorem cleanRow_fixed (df : List Judge) : ∀ r ∈ calculate_numbers df, cleanRow r = r := by
  intro r hr
  have hsh := renumber_shape (sortJudges (df.map cleanRow))
  have hmem : judgeShape r ∈ (sortJudges (df.map cleanRow)).map judgeShape := by
    rw [← hsh]
    exact List.mem_map_of_mem judgeShape hr
  rw [List.mem_map] at hmem
  obtain ⟨r', hr', hshape⟩ := hmem
  have hr'' : r' ∈ df.map cleanRow :=
    (List.perm_insertionSort rowLE (df.map cleanRow)).mem_iff.mp hr'
  rw [List.mem_map] at hr''
  obtain ⟨r0, _, rfl⟩ := hr''
  have hcat : r.category = cleanCat r0.category :=
    (congrArg (fun q => q.2.2.1) hshape).symm
  have hty : r.jtype = cleanType r0.jtype :=
    (congrArg (fun q => q.2.2.2) hshape).symm
  have h1 : cleanCat r.category = r.category := by rw [hcat, cleanCat_idem]
  have h2 : cleanType r.jtype = r.jtype := by rw [hty, cleanType_idem]
  cases r with
  | mk nm cat ty pr num =>
    simp only [cleanRow]
    simp only at h1 h2
    rw [Judge.mk.injEq]
    exact ⟨rfl, h1, h2, rfl, rfl⟩

/-- Claim C4: `calculate_numbers` is idempotent — applying it twice yields
exactly the same row ordering and numbers as applying it once; this rests on
the cleaning being idempotent, the sort being a stable sort by (category rank,
type rank, last-name token) that leaves an already-sorted table unchanged, and
the numbering being a function of the sorted category/type sequence alone. -/
theorem claim_C4_idempotent (df : List Judge) :
    calculate_numbers (calculate_numbers df) = calculate_numbers df := by
  have hfix : (calculate_numbers df).map cleanRow = calculate_numbers df := by
    have h := cleanRow_fixed df
    calc (calculate_numbers df).map cleanRow
        = (calculate_numbers df).map id := List.map_congr_left h
      _ = calculate_numbers df := List.map_id _
  have hsorted : List.Sorted rowLE (calculate_numbers df) :=
    sorted_of_shape_eq (renumber_shape (sortJudges (df.map cleanRow)))
      (List.sorted_insertionSort rowLE (df.map cleanRow))
  have hsort_eq : sortJudges (calculate_numbers df) = calculate_numbers df :=
    List.Sorted.insertionSort_eq hsorted
  have e1 : calculate_numbers (calculate_numbers df)
      = renumber (sortJudges ((calculate_numbers df).map cleanRow)) := rfl
  rw [e1, hfix, hsort_eq]
  exact renumber_renumber (sortJudges (df.map cleanRow))
